import Mathlib

/-!
# OF platform bus: materialising devices from the device tree

A shallow embedding of `arch/microblaze/kernel/of_platform.c`.

* A `struct device_node` is a value of `DeviceNode`: its address (the identity that the
  C code compares with `==`), its `full_name`, its `phandle` and its ordered children.
* The mutable kernel state touched by the file is `Kernel`: the list of devices
  registered on `of_platform_bus_type` (in registration order), the reference count of
  every node (indexed by node address) and the number of device-creation attempts made
  so far.
* Whether an allocation or a registration fails is not decided by this file; it is an
  oracle `fate : Nat → Outcome`, asked once per call of `of_platform_device_create`
  with the serial number of that call.
* Every C function becomes a state-passing function returning its result and the new
  state.  `int` status codes are `Int`; reference counts are `Int` and are only ever
  incremented and decremented by one, so wrap-around plays no role.
* `planNode`, `planChildren` and `planProbe` list, in order of creation, the devices a walk
  registers when nothing fails.  The central lemmas (`bus_create_loop_runs`, `probe_runs`)
  show that the code registers the devices of the plan up to the first failing attempt and
  returns `-ENOMEM` exactly when it stopped early; the properties of the walk follow from
  them.
* `of_platform_bus_create_depth` and `of_platform_bus_probe_depth` are the same functions
  run with a bounded number of nested activations; they are used to bound the recursion
  depth by the depth of the tree.  `expectedNodes` lists the nodes a successful probe has
  to materialize, in the words of the specification.
-/

namespace OfPlatform

/-! ## Data model -/

/-- Errno value `EINVAL`. -/
def EINVAL : Int := 22

/-- Errno value `ENOMEM`. -/
def ENOMEM : Int := 12

/-- Errno value `EEXIST`, used as the status of a failed registration. -/
def EEXIST : Int := 17

/-- A `struct device_node`: identity (`addr`), `full_name`, `phandle` and the ordered
list of child nodes (the `child`/`sibling` chain). -/
inductive DeviceNode where
  | mk (addr : Nat) (full_name : String) (phandle : Nat) (children : List DeviceNode)

/-- Address of a node: what pointer comparison compares. -/
def DeviceNode.addr : DeviceNode → Nat
  | .mk a _ _ _ => a

/-- Field `full_name` of a node. -/
def DeviceNode.full_name : DeviceNode → String
  | .mk _ n _ _ => n

/-- Field `phandle` of a node. -/
def DeviceNode.phandle : DeviceNode → Nat
  | .mk _ _ p _ => p

/-- Direct children of a node, in sibling order. -/
def DeviceNode.children : DeviceNode → List DeviceNode
  | .mk _ _ _ cs => cs

/-- The only bus type of this file, `of_platform_bus_type`. -/
inductive BusType where
  | of_platform_bus_type
  deriving DecidableEq, Repr

/-- A `struct of_device`: `addr` is the identity of the allocation, `of_node` is
`dev.of_node`, `parent` is `dev.parent` (the address of the parent device, `none` for
NULL), `bus_id` the name requested by the caller, `dma_mask` is `archdata.dma_mask` and
`bus` is `dev.bus`. -/
structure OfDevice where
  addr : Nat
  of_node : DeviceNode
  parent : Option Nat
  bus_id : Option String
  dma_mask : Nat
  bus : Option BusType

/-- The kernel state this file reads and writes. -/
structure Kernel where
  klist_devices : List OfDevice
  kref : Nat → Int
  attempts : Nat

/-- What happens to one call of `of_platform_device_create`. -/
inductive Outcome where
  | allocFails
  | registerFails
  | ok
  deriving DecidableEq, Repr

/-- Modelled from the spec: the match table, whose entries are declared outside this
file.  It is "consulted via does this node match any entry, a pure predicate with no side
effects", so a table is represented by that predicate. -/
abbrev MatchTable := DeviceNode → Bool

/-- Modelled from the spec: `of_match_node`, "test a node against a match table (pure, no
ownership effect)". -/
def of_match_node (tbl : MatchTable) (node : DeviceNode) : Bool :=
  tbl node

/-- The table argument `matches` of the probe: NULL, the sentinel `OF_NO_DEEP_PROBE`, or a
pointer to a real table. -/
inductive MatchesArg where
  | null
  | OF_NO_DEEP_PROBE
  | table (t : MatchTable)

/-- What the file takes from its platform: the default table `of_default_bus_ids` and the
node that the path "/" resolves to. -/
structure Platform where
  of_default_bus_ids : MatchTable
  of_root : DeviceNode

/-! ## Services of the node store and of device registration -/

/-- Modelled from the spec: `of_node_get`, "acquire a reference on a specific node". -/
def of_node_get (np : DeviceNode) (s : Kernel) : Kernel :=
  { s with kref := fun a => if a = np.addr then s.kref a + 1 else s.kref a }

/-- Modelled from the spec: `of_node_put`, "release a reference on a specific node". -/
def of_node_put (np : DeviceNode) (s : Kernel) : Kernel :=
  { s with kref := fun a => if a = np.addr then s.kref a - 1 else s.kref a }

/-- Modelled from the spec: `of_find_node_by_path`, "resolve a node by absolute path";
the node found is returned with a reference taken on it.  Only the path "/" is used. -/
def of_find_node_by_path (pf : Platform) (s : Kernel) : DeviceNode × Kernel :=
  (pf.of_root, of_node_get pf.of_root s)

/-- Modelled from the spec: one step of `for_each_child_of_node`, that is
`of_get_next_child(node, prev)`: the iteration "yields each child with an implicit
reference that is automatically exchanged for the next sibling's reference on advance".
`next` is the child the step yields (`none` at the end of the chain). -/
def of_get_next_child (prev next : Option DeviceNode) (s : Kernel) : Kernel :=
  let s1 := match next with
    | some n => of_node_get n s
    | none => s
  match prev with
  | some p => of_node_put p s1
  | none => s1

/-- Modelled from the spec: `of_device_alloc`, "allocate a Device shell bound to a node,
a parent device, and an optional bus-assigned name".  The device's reference to its node
is "non-owning".  The allocation is given the serial number of the attempt as address. -/
def of_device_alloc (fate : Nat → Outcome) (np : DeviceNode) (bus_id : Option String)
    (parent : Option Nat) (s : Kernel) : Option OfDevice × Kernel :=
  match fate s.attempts with
  | .allocFails => (none, { s with attempts := s.attempts + 1 })
  | _ =>
    (some { addr := s.attempts, of_node := np, parent := parent, bus_id := bus_id,
            dma_mask := 0, bus := none },
     { s with attempts := s.attempts + 1 })

/-- Modelled from the spec: `of_device_register`, "register a Device (may fail; failure
must not leave the Device visible anywhere)".  Success appends the device to the list of
its bus and returns 0; failure returns a nonzero status.  The oracle is asked about the
attempt that allocated `dev`, whose serial number is the address of `dev`. -/
def of_device_register (fate : Nat → Outcome) (dev : OfDevice) (s : Kernel) :
    Int × Kernel :=
  match fate dev.addr with
  | .registerFails => (-EEXIST, s)
  | _ => (0, { s with klist_devices := s.klist_devices ++ [dev] })

/-- Modelled from the spec: `of_device_free`, "free an unregistered Device". -/
def of_device_free (_dev : OfDevice) (s : Kernel) : Kernel := s

/-- Modelled from the spec: `bus_find_device` on `of_platform_bus_type` with a NULL
start, "enumerate/query registered Devices filtered by bus type and a caller-supplied
predicate": the first registered device for which `fn dev data` is nonzero. -/
def bus_find_device {α : Type} (data : α) (fn : OfDevice → α → Bool) (s : Kernel) :
    Option OfDevice × Kernel :=
  (s.klist_devices.find? (fun dev => fn dev data), s)

/-! ## The functions of `of_platform.c` -/

/-- Source `of_platform_device_create`. -/
def of_platform_device_create (fate : Nat → Outcome) (np : DeviceNode)
    (bus_id : Option String) (parent : Option Nat) (s : Kernel) :
    Option OfDevice × Kernel :=
  match of_device_alloc fate np bus_id parent s with
  | (none, s1) => (none, s1)
  | (some dev0, s1) =>
    let dev : OfDevice :=
      { dev0 with dma_mask := 0xffffffff, bus := some BusType.of_platform_bus_type }
    match of_device_register fate dev s1 with
    | (rc, s2) =>
      if rc ≠ 0 then (none, of_device_free dev s2)
      else (some dev, s2)

mutual
/-- Source `of_platform_bus_create`: run the loop over the children of `bus` with
`rc = 0`. -/
def of_platform_bus_create (fate : Nat → Outcome) (bus : DeviceNode)
    (tbl : MatchTable) (parent : Option Nat) (s : Kernel) : Int × Kernel :=
  match bus with
  | .mk _ _ _ children => bus_create_loop fate children tbl parent 0 none s
/-- The `for_each_child_of_node` loop of `of_platform_bus_create`: the children still to
visit, the current value of `rc`, and the child of the previous iteration. -/
def bus_create_loop (fate : Nat → Outcome) : List DeviceNode → MatchTable → Option Nat →
    Int → Option DeviceNode → Kernel → Int × Kernel
  | [], _, _, rc, prev, s => (rc, of_get_next_child prev none s)
  | child :: rest, tbl, parent, rc, prev, s =>
    let s1 := of_get_next_child prev (some child) s
    match of_platform_device_create fate child none parent s1 with
    | (none, s2) =>
      -- rc = -ENOMEM, so the recursion is skipped and the loop is left
      (-ENOMEM, of_node_put child s2)
    | (some dev, s2) =>
      if of_match_node tbl child = false then
        bus_create_loop fate rest tbl parent rc (some child) s2
      else
        match (if rc = 0 then of_platform_bus_create fate child tbl (some dev.addr) s2
               else (rc, s2)) with
        | (rc1, s3) =>
          if rc1 ≠ 0 then (rc1, of_node_put child s3)
          else bus_create_loop fate rest tbl parent rc1 (some child) s3
end

/-- The statements `dev = of_platform_device_create(np, NULL, parent); if (dev == NULL)
rc = -ENOMEM; else rc = of_platform_bus_create(np, matches, &dev->dev);` which
`of_platform_bus_probe` runs on a matching root and on every matching child. -/
def probe_node (fate : Nat → Outcome) (np : DeviceNode) (tbl : MatchTable)
    (parent : Option Nat) (s : Kernel) : Int × Kernel :=
  match of_platform_device_create fate np none parent s with
  | (none, s2) => (-ENOMEM, s2)
  | (some dev, s2) => of_platform_bus_create fate np tbl (some dev.addr) s2

/-- The `for_each_child_of_node` loop of `of_platform_bus_probe` (root not matching). -/
def bus_probe_loop (fate : Nat → Outcome) : List DeviceNode → MatchTable → Option Nat →
    Int → Option DeviceNode → Kernel → Int × Kernel
  | [], _, _, rc, prev, s => (rc, of_get_next_child prev none s)
  | child :: rest, tbl, parent, rc, prev, s =>
    let s1 := of_get_next_child prev (some child) s
    if of_match_node tbl child = false then
      bus_probe_loop fate rest tbl parent rc (some child) s1
    else
      match probe_node fate child tbl parent s1 with
      | (rc1, s3) =>
        if rc1 ≠ 0 then (rc1, of_node_put child s3)
        else bus_probe_loop fate rest tbl parent rc1 (some child) s3

/-- Source `of_platform_bus_probe`. -/
def of_platform_bus_probe (pf : Platform) (fate : Nat → Outcome)
    (root : Option DeviceNode) (arg : MatchesArg) (parent : Option Nat)
    (s : Kernel) : Int × Kernel :=
  -- `matches == NULL` selects the default table; the sentinel is refused
  let table : Option MatchTable :=
    match arg with
    | .null => some pf.of_default_bus_ids
    | .OF_NO_DEEP_PROBE => none
    | .table t => some t
  match table with
  | none => (-EINVAL, s)
  | some tbl =>
    match (match root with
           | none => of_find_node_by_path pf s
           | some r => (r, of_node_get r s)) with
    | (root1, s1) =>
      if of_match_node tbl root1 = true then
        match probe_node fate root1 tbl parent s1 with
        | (rc, s3) => (rc, of_node_put root1 s3)
      else
        match bus_probe_loop fate root1.children tbl parent 0 none s1 with
        | (rc, s3) => (rc, of_node_put root1 s3)

/-- Source `of_dev_node_match`. -/
def of_dev_node_match (dev : OfDevice) (data : DeviceNode) : Bool :=
  dev.of_node.addr == data.addr

/-- Source `of_find_device_by_node`. -/
def of_find_device_by_node (np : DeviceNode) (s : Kernel) : Option OfDevice × Kernel :=
  match bus_find_device np of_dev_node_match s with
  | (some dev, s1) => (some dev, s1)
  | (none, s1) => (none, s1)

/-- Source `of_dev_phandle_match`. -/
def of_dev_phandle_match (dev : OfDevice) (ph : Nat) : Bool :=
  dev.of_node.phandle == ph

/-- Source `of_find_device_by_phandle`. -/
def of_find_device_by_phandle (ph : Nat) (s : Kernel) : Option OfDevice × Kernel :=
  match bus_find_device ph of_dev_phandle_match s with
  | (some dev, s1) => (some dev, s1)
  | (none, s1) => (none, s1)

/-! ## Specification-level functions -/

/-- The device a successful `of_platform_device_create` returns. -/
def newDevice (addr : Nat) (np : DeviceNode) (bus_id : Option String)
    (parent : Option Nat) : OfDevice :=
  { addr := addr, of_node := np, parent := parent, bus_id := bus_id,
    dma_mask := 0xffffffff, bus := some BusType.of_platform_bus_type }

mutual
/-- The devices the walk creates for `np` and, when `np` matches, for its subtree, if no
creation fails: `np` gets address `base` and parent `parent`. -/
def planNode (tbl : MatchTable) (parent : Option Nat) (base : Nat) :
    DeviceNode → List OfDevice
  | .mk a n p cs =>
    newDevice base (.mk a n p cs) none parent ::
      (if tbl (.mk a n p cs) = true then planChildren tbl (some base) (base + 1) cs else [])
/-- The devices `of_platform_bus_create` creates for the children `cs` of a bus, in order of
creation, if no creation fails; `base` is the serial number of the first attempt. -/
def planChildren (tbl : MatchTable) (parent : Option Nat) (base : Nat) :
    List DeviceNode → List OfDevice
  | [] => []
  | c :: rest =>
    planNode tbl parent base c ++
      planChildren tbl parent (base + (planNode tbl parent base c).length) rest
end

/-- The devices the child loop of `of_platform_bus_probe` creates (root not matching) if no
creation fails: only matching children are visited. -/
def planProbeChildren (tbl : MatchTable) (parent : Option Nat) (base : Nat) :
    List DeviceNode → List OfDevice
  | [] => []
  | c :: rest =>
    if tbl c = true then
      planNode tbl parent base c ++
        planProbeChildren tbl parent (base + (planNode tbl parent base c).length) rest
    else planProbeChildren tbl parent base rest

/-- The devices `of_platform_bus_probe` creates from `root` if no creation fails. -/
def planProbe (tbl : MatchTable) (parent : Option Nat) (base : Nat) (root : DeviceNode) :
    List OfDevice :=
  if tbl root = true then planNode tbl parent base root
  else planProbeChildren tbl parent base root.children

/-- The table a probe works with: `none` when the call is refused. -/
def resolveTable (pf : Platform) : MatchesArg → Option MatchTable
  | .null => some pf.of_default_bus_ids
  | .OF_NO_DEEP_PROBE => none
  | .table t => some t

/-- The root node a probe ends up using. -/
def resolveRoot (pf : Platform) : Option DeviceNode → DeviceNode
  | none => pf.of_root
  | some r => r

mutual
/-- Addresses of a node and of all its descendants, in depth-first pre-order. -/
def DeviceNode.addrs : DeviceNode → List Nat
  | .mk a _ _ cs => a :: addrsList cs
/-- Addresses of the nodes of a forest, in depth-first pre-order. -/
def addrsList : List DeviceNode → List Nat
  | [] => []
  | c :: rest => c.addrs ++ addrsList rest
end

/-- The devices registered after `before`, when `after` extends it. -/
def newDevices (before after : Kernel) : List OfDevice :=
  after.klist_devices.drop before.klist_devices.length

/-- A device for node `np` was registered between `before` and `after`. -/
def Materialized (before after : Kernel) (np : DeviceNode) : Prop :=
  ∃ d ∈ newDevices before after, d.of_node.addr = np.addr

/-- The creation attempt that would produce device `d` succeeds. -/
def fateOk (fate : Nat → Outcome) (d : OfDevice) : Bool := decide (fate d.addr = Outcome.ok)

/-- Outcome of walking a plan `P` from state `s`: the status, the registry and the attempt
counter afterwards.  Devices are registered up to the first failing attempt. -/
def Runs (fate : Nat → Outcome) (P : List OfDevice) (s : Kernel) (rc : Int)
    (devs : List OfDevice) (n : Nat) : Prop :=
  rc = (if P.all (fateOk fate) = true then 0 else -ENOMEM) ∧
  devs = s.klist_devices ++ P.takeWhile (fateOk fate) ∧
  n = s.attempts + min ((P.takeWhile (fateOk fate)).length + 1) P.length

/-- A tree whose nodes carry the phandles 5, 7 and 9. -/
def phandleTree : DeviceNode :=
  .mk 10 "/" 5 [.mk 11 "/a" 7 [], .mk 12 "/b" 9 []]

/-- A table that matches the root of `phandleTree` only. -/
def phandleTable : MatchTable := fun n => n.full_name == "/"

/-- A state with an empty registry, every node holding one reference. -/
def emptyKernel : Kernel := { klist_devices := [], kref := fun _ => 1, attempts := 0 }

/-- The devices of `P` have the consecutive addresses `b`, `b + 1`, ... -/
def Consecutive : Nat → List OfDevice → Prop
  | _, [] => True
  | b, d :: P => d.addr = b ∧ Consecutive (b + 1) P

/-- Addresses of the nodes of a list of devices. -/
def nodeAddrsOf (P : List OfDevice) : List Nat := P.map (fun d => d.of_node.addr)

/-- The tree of the end-to-end scenario: `/soc` with the children `/soc/uart0` and
`/soc/bridge`, the latter with the child `/soc/bridge/dev0`. -/
def socDev0 : DeviceNode := .mk 4 "/soc/bridge/dev0" 0 []

/-- Node `/soc/bridge`. -/
def socBridge : DeviceNode := .mk 3 "/soc/bridge" 0 [socDev0]

/-- Node `/soc/uart0`. -/
def socUart0 : DeviceNode := .mk 2 "/soc/uart0" 0 []

/-- Node `/soc`. -/
def socTree : DeviceNode := .mk 1 "/soc" 0 [socUart0, socBridge]

/-- A table matching `/soc` and `/soc/bridge` only. -/
def socTable : MatchTable := fun n => n.full_name == "/soc" || n.full_name == "/soc/bridge"

/-- A table matching `/soc/bridge` only, under which `/soc` is a mere container. -/
def bridgeTable : MatchTable := fun n => n.full_name == "/soc/bridge"

/-- The platform of the scenario. -/
def socPlatform : Platform := { of_default_bus_ids := socTable, of_root := socTree }

/-- The oracle under which every creation succeeds. -/
def allOk : Nat → Outcome := fun _ => Outcome.ok

/-- The registered devices associated with node `np`. -/
def devicesFor (s : Kernel) (np : DeviceNode) : List OfDevice :=
  s.klist_devices.filter (fun d => of_dev_node_match d np)

/-- Every node has at most one registered device. -/
def OnePerNode (s : Kernel) : Prop :=
  ∀ np : DeviceNode, (devicesFor s np).length ≤ 1

/-- An oracle under which exactly the creation attempt number `k` fails. -/
def failsAt (k : Nat) : Nat → Outcome := fun i => if i = k then Outcome.allocFails else Outcome.ok

/-- A tree with two levels of siblings: `/bus` with the children `/bus/sub` (itself with the
children `/bus/sub/x` and `/bus/sub/y`) and `/bus/late`. -/
def nestTree : DeviceNode :=
  .mk 20 "/bus" 0
    [.mk 21 "/bus/sub" 0 [.mk 22 "/bus/sub/x" 0 [], .mk 23 "/bus/sub/y" 0 []],
     .mk 24 "/bus/late" 0 []]

/-- A table matching `/bus` and `/bus/sub`. -/
def nestTable : MatchTable := fun n => n.full_name == "/bus" || n.full_name == "/bus/sub"

/-- Device `d` of the devices `P` created over the forest `cs` sits where the tree says:
either its node is one of the roots `cs` and its parent is `parent`, or its node lies
strictly beneath a root and its parent is an earlier device of `P` whose node is the
parent node of the node of `d`. -/
def HierChildren (cs : List DeviceNode) (parent : Option Nat) (P : List OfDevice)
    (d : OfDevice) : Prop :=
  (d.of_node ∈ cs ∧ d.parent = parent) ∨
    (∃ c ∈ cs, d.of_node.addr ∈ addrsList c.children ∧
      ∃ p ∈ P, d.parent = some p.addr ∧ d.of_node ∈ p.of_node.children ∧ p.addr < d.addr)

mutual
/-- Depth of the tree below and including a node: 1 for a node without children. -/
def DeviceNode.height : DeviceNode → Nat
  | .mk _ _ _ cs => heightList cs + 1
/-- Largest depth among the trees of a forest, 0 for the empty forest. -/
def heightList : List DeviceNode → Nat
  | [] => 0
  | c :: rest => max c.height (heightList rest)
end

/-- The loop of `of_platform_bus_create` with the recursive call made through `call`,
which returns `none` when the call stack is exhausted. -/
def bus_create_loop_depth (fate : Nat → Outcome)
    (call : DeviceNode → MatchTable → Option Nat → Kernel → Option (Int × Kernel)) :
    List DeviceNode → MatchTable → Option Nat → Int → Option DeviceNode → Kernel →
      Option (Int × Kernel)
  | [], _, _, rc, prev, s => some (rc, of_get_next_child prev none s)
  | child :: rest, tbl, parent, rc, prev, s =>
    let s1 := of_get_next_child prev (some child) s
    match of_platform_device_create fate child none parent s1 with
    | (none, s2) => some (-ENOMEM, of_node_put child s2)
    | (some dev, s2) =>
      if of_match_node tbl child = false then
        bus_create_loop_depth fate call rest tbl parent rc (some child) s2
      else
        match (if rc = 0 then call child tbl (some dev.addr) s2 else some (rc, s2)) with
        | none => none
        | some (rc1, s3) =>
          if rc1 ≠ 0 then some (rc1, of_node_put child s3)
          else bus_create_loop_depth fate call rest tbl parent rc1 (some child) s3

/-- Source `of_platform_bus_create`, run with room for at most `depth` nested activations
of the function: `none` when the recursion would go deeper. -/
def of_platform_bus_create_depth (fate : Nat → Outcome) :
    Nat → DeviceNode → MatchTable → Option Nat → Kernel → Option (Int × Kernel)
  | 0, _, _, _, _ => none
  | depth + 1, bus, tbl, parent, s =>
    bus_create_loop_depth fate (of_platform_bus_create_depth fate depth) bus.children tbl
      parent 0 none s

/-- The statements of `probe_node`, with the call of `of_platform_bus_create` made with
room for `depth` nested activations. -/
def probe_node_depth (fate : Nat → Outcome) (depth : Nat) (np : DeviceNode)
    (tbl : MatchTable) (parent : Option Nat) (s : Kernel) : Option (Int × Kernel) :=
  match of_platform_device_create fate np none parent s with
  | (none, s2) => some (-ENOMEM, s2)
  | (some dev, s2) => of_platform_bus_create_depth fate depth np tbl (some dev.addr) s2

/-- The child loop of `of_platform_bus_probe`, with room for `depth` nested activations
of `of_platform_bus_create` in each call. -/
def bus_probe_loop_depth (fate : Nat → Outcome) (depth : Nat) :
    List DeviceNode → MatchTable → Option Nat → Int → Option DeviceNode → Kernel →
      Option (Int × Kernel)
  | [], _, _, rc, prev, s => some (rc, of_get_next_child prev none s)
  | child :: rest, tbl, parent, rc, prev, s =>
    let s1 := of_get_next_child prev (some child) s
    if of_match_node tbl child = false then
      bus_probe_loop_depth fate depth rest tbl parent rc (some child) s1
    else
      match probe_node_depth fate depth child tbl parent s1 with
      | none => none
      | some (rc1, s3) =>
        if rc1 ≠ 0 then some (rc1, of_node_put child s3)
        else bus_probe_loop_depth fate depth rest tbl parent rc1 (some child) s3

/-- Source `of_platform_bus_probe`, run with room for at most `depth` nested activations,
its own included. -/
def of_platform_bus_probe_depth (pf : Platform) (fate : Nat → Outcome) :
    Nat → Option DeviceNode → MatchesArg → Option Nat → Kernel → Option (Int × Kernel)
  | 0, _, _, _, _ => none
  | depth + 1, root, arg, parent, s =>
    match resolveTable pf arg with
    | none => some (-EINVAL, s)
    | some tbl =>
      match (match root with
             | none => of_find_node_by_path pf s
             | some r => (r, of_node_get r s)) with
      | (root1, s1) =>
        if of_match_node tbl root1 = true then
          match probe_node_depth fate depth root1 tbl parent s1 with
          | none => none
          | some (rc, s3) => some (rc, of_node_put root1 s3)
        else
          match bus_probe_loop_depth fate depth root1.children tbl parent 0 none s1 with
          | none => none
          | some (rc, s3) => some (rc, of_node_put root1 s3)

/-- A table matching every node. -/
def anyTable : MatchTable := fun _ => true

mutual
/-- A node and all its descendants in depth-first pre-order, each paired with the chain of
its ancestors, outermost first, that continues the chain `path` given for the node. -/
def nodeWithPaths : List DeviceNode → DeviceNode → List (List DeviceNode × DeviceNode)
  | path, .mk a n p cs =>
    (path, .mk a n p cs) :: forestWithPaths (path ++ [.mk a n p cs]) cs
/-- The nodes of a forest and all their descendants in depth-first pre-order, each paired
with its chain of ancestors; the roots of the forest have the chain `path`. -/
def forestWithPaths : List DeviceNode → List DeviceNode → List (List DeviceNode × DeviceNode)
  | _, [] => []
  | path, c :: rest => nodeWithPaths path c ++ forestWithPaths path rest
end

/-- The nodes a probe with a matching root has to materialize, following the words of the
specification: the root, then every descendant all of whose proper ancestors strictly
below the root match the table, in depth-first pre-order. -/
def expectedRootMatch (tbl : MatchTable) (root : DeviceNode) : List DeviceNode :=
  root :: ((forestWithPaths [] root.children).filter (fun e => e.1.all tbl)).map (fun e => e.2)

/-- The nodes a walk from the matching node `c` has to materialize: `c`, then every
descendant of `c` all of whose ancestors from `c` down to its own parent match the
table, in depth-first pre-order. -/
def expectedFromChild (tbl : MatchTable) (c : DeviceNode) : List DeviceNode :=
  c :: ((forestWithPaths [c] c.children).filter (fun e => e.1.all tbl)).map (fun e => e.2)

/-- The nodes a probe with a root that does not match has to materialize, following the
words of the specification: for every matching direct child of the root, in order, the
child and the descendants listed by `expectedFromChild`. -/
def expectedRootNoMatch (tbl : MatchTable) (root : DeviceNode) : List DeviceNode :=
  (root.children.filter (fun c => tbl c)).flatMap (expectedFromChild tbl)

/-- The nodes a probe has to materialize when nothing fails. -/
def expectedNodes (tbl : MatchTable) (root : DeviceNode) : List DeviceNode :=
  if tbl root = true then expectedRootMatch tbl root else expectedRootNoMatch tbl root

/-- A table matching `/bus` and `/bus/sub/x`, but not `/bus/sub` between them. -/
def deepTable : MatchTable := fun n => n.full_name == "/bus" || n.full_name == "/bus/sub/x"

/-- In the devices `P`, a device whose node is a child of the node of another device has
that device as parent. -/
def Mirrors (P : List OfDevice) : Prop :=
  ∀ d ∈ P, ∀ p ∈ P, ∀ g ∈ p.of_node.children, g.addr = d.of_node.addr →
    d.parent = some p.addr

/-! ## Basic facts -/

/-- Induction over a forest: to prove a property of every list of nodes it is enough to
prove it for the empty list and for `c :: rest` from the property of the children of `c`
and of `rest`. -/
theorem forest_induction {motive : List DeviceNode → Prop} (nil : motive [])
    (cons : ∀ (c : DeviceNode) (rest : List DeviceNode),
      motive c.children → motive rest → motive (c :: rest)) :
    ∀ cs : List DeviceNode, motive cs := fun cs =>
  @DeviceNode.rec_1 (fun c => motive c.children) motive (fun _ _ _ _ ih => ih) nil cons cs

theorem create_eq (fate : Nat → Outcome) (np : DeviceNode) (bus_id : Option String)
    (parent : Option Nat) (s : Kernel) :
    of_platform_device_create fate np bus_id parent s =
      if fate s.attempts = Outcome.ok then
        (some (newDevice s.attempts np bus_id parent),
          { s with klist_devices := s.klist_devices ++ [newDevice s.attempts np bus_id parent],
                   attempts := s.attempts + 1 })
      else (none, { s with attempts := s.attempts + 1 }) := by
  unfold of_platform_device_create of_device_alloc of_device_register of_device_free newDevice
  cases h : fate s.attempts <;> simp [h, EEXIST]

theorem planNode_eq (tbl : MatchTable) (parent : Option Nat) (base : Nat) (c : DeviceNode) :
    planNode tbl parent base c =
      newDevice base c none parent ::
        (if tbl c = true then planChildren tbl (some base) (base + 1) c.children else []) := by
  cases c; simp [planNode, DeviceNode.children]

theorem bus_create_eq (fate : Nat → Outcome) (bus : DeviceNode) (tbl : MatchTable)
    (parent : Option Nat) (s : Kernel) :
    of_platform_bus_create fate bus tbl parent s =
      bus_create_loop fate bus.children tbl parent 0 none s := by
  cases bus; simp [of_platform_bus_create, DeviceNode.children]

@[simp] theorem of_node_put_klist (np : DeviceNode) (s : Kernel) :
    (of_node_put np s).klist_devices = s.klist_devices := rfl
@[simp] theorem of_node_put_attempts (np : DeviceNode) (s : Kernel) :
    (of_node_put np s).attempts = s.attempts := rfl
@[simp] theorem of_node_get_klist (np : DeviceNode) (s : Kernel) :
    (of_node_get np s).klist_devices = s.klist_devices := rfl
@[simp] theorem of_node_get_attempts (np : DeviceNode) (s : Kernel) :
    (of_node_get np s).attempts = s.attempts := rfl
@[simp] theorem of_get_next_child_klist (prev next : Option DeviceNode) (s : Kernel) :
    (of_get_next_child prev next s).klist_devices = s.klist_devices := by
  cases prev <;> cases next <;> rfl
@[simp] theorem of_get_next_child_attempts (prev next : Option DeviceNode) (s : Kernel) :
    (of_get_next_child prev next s).attempts = s.attempts := by
  cases prev <;> cases next <;> rfl

theorem ENOMEM_ne : (-ENOMEM : Int) ≠ 0 := by decide

theorem runs_nil (fate : Nat → Outcome) (s : Kernel) :
    Runs fate [] s 0 s.klist_devices s.attempts := by
  simp [Runs]

theorem runs_fail (fate : Nat → Outcome) (d : OfDevice) (P : List OfDevice) (s : Kernel)
    (hd : d.addr = s.attempts) (hf : fate s.attempts ≠ Outcome.ok) :
    Runs fate (d :: P) s (-ENOMEM) s.klist_devices (s.attempts + 1) := by
  have : fateOk fate d = false := by simp [fateOk, hd, hf]
  simp [Runs, this]

theorem runs_cons (fate : Nat → Outcome) (d : OfDevice) (P : List OfDevice) (s s1 : Kernel)
    (rc : Int) (devs : List OfDevice) (n : Nat)
    (hd : d.addr = s.attempts) (hf : fate s.attempts = Outcome.ok)
    (h1 : s1.klist_devices = s.klist_devices ++ [d]) (h2 : s1.attempts = s.attempts + 1)
    (h : Runs fate P s1 rc devs n) : Runs fate (d :: P) s rc devs n := by
  have : fateOk fate d = true := by simp [fateOk, hd, hf]
  obtain ⟨ha, hb, hc⟩ := h
  refine ⟨?_, ?_, ?_⟩
  · simp [ha, this]
  · simp [hb, h1, this]
  · simp [hc, h2, this]; omega

theorem runs_zero {fate : Nat → Outcome} {P : List OfDevice} {s : Kernel} {rc : Int}
    {devs : List OfDevice} {n : Nat} (h : Runs fate P s rc devs n) (h0 : rc = 0) :
    P.all (fateOk fate) = true ∧ devs = s.klist_devices ++ P ∧ n = s.attempts + P.length := by
  obtain ⟨ha, hb, hc⟩ := h
  have hall : P.all (fateOk fate) = true := by
    by_contra hn
    rw [if_neg hn] at ha
    exact ENOMEM_ne (ha ▸ h0)
  have htw : P.takeWhile (fateOk fate) = P := by
    rw [List.takeWhile_eq_self_iff]
    intro x hx
    exact (List.all_eq_true.mp hall) x hx
  rw [htw] at hb hc
  exact ⟨hall, hb, by omega⟩

theorem runs_nonzero {fate : Nat → Outcome} {P : List OfDevice} {s : Kernel} {rc : Int}
    {devs : List OfDevice} {n : Nat} (h : Runs fate P s rc devs n) (h0 : rc ≠ 0) :
    ¬ P.all (fateOk fate) = true := by
  intro hall
  exact h0 (by rw [h.1, if_pos hall])

theorem takeWhile_append_of_not_all {α : Type} (p : α → Bool) (l r : List α)
    (h : ¬ l.all p = true) : (l ++ r).takeWhile p = l.takeWhile p := by
  induction l with
  | nil => simp at h
  | cons a l ih =>
    by_cases ha : p a = true
    · simp [List.takeWhile_cons, ha]
      apply ih
      simpa [ha] using h
    · simp [List.takeWhile_cons, ha]

theorem takeWhile_length_lt_of_not_all {α : Type} (p : α → Bool) (l : List α)
    (h : ¬ l.all p = true) : (l.takeWhile p).length < l.length := by
  induction l with
  | nil => simp at h
  | cons a l ih =>
    by_cases ha : p a = true
    · have := ih (by simpa [ha] using h)
      simp [List.takeWhile_cons, ha, this]
    · simp [List.takeWhile_cons, ha]

theorem runs_append_fail {fate : Nat → Outcome} {P : List OfDevice} {s : Kernel} {rc : Int}
    {devs : List OfDevice} {n : Nat} (h : Runs fate P s rc devs n) (h0 : rc ≠ 0)
    (Q : List OfDevice) : Runs fate (P ++ Q) s rc devs n := by
  have hn := runs_nonzero h h0
  have hlt := takeWhile_length_lt_of_not_all _ _ hn
  obtain ⟨ha, hb, hc⟩ := h
  refine ⟨?_, ?_, ?_⟩
  · rw [ha, if_neg hn, if_neg]
    simp only [List.all_append, Bool.and_eq_true]
    exact fun h => hn h.1
  · rw [takeWhile_append_of_not_all _ _ _ hn, hb]
  · rw [takeWhile_append_of_not_all _ _ _ hn, hc, List.length_append]
    omega

theorem runs_append_ok {fate : Nat → Outcome} {P Q : List OfDevice} {s s1 : Kernel}
    {rc rc1 : Int} {devs devs1 : List OfDevice} {n n1 : Nat}
    (h : Runs fate P s rc devs n) (h0 : rc = 0)
    (h1 : s1.klist_devices = devs) (h2 : s1.attempts = n)
    (hq : Runs fate Q s1 rc1 devs1 n1) : Runs fate (P ++ Q) s rc1 devs1 n1 := by
  obtain ⟨hall, hd, hn⟩ := runs_zero h h0
  have htw : (P ++ Q).takeWhile (fateOk fate) = P ++ Q.takeWhile (fateOk fate) := by
    rw [List.takeWhile_append_of_pos]
    intro x hx
    exact (List.all_eq_true.mp hall) x hx
  obtain ⟨ha, hb, hc⟩ := hq
  refine ⟨?_, ?_, ?_⟩
  · rw [ha]; simp [List.all_append, hall]
  · rw [htw, hb, h1, hd, List.append_assoc]
  · rw [htw, hc, h2, hn]; simp only [List.length_append]; omega

/-! ## The walk of `of_platform_bus_create` follows its plan -/

@[simp] theorem newDevice_addr (a : Nat) (np : DeviceNode) (b : Option String) (p : Option Nat) :
    (newDevice a np b p).addr = a := rfl

theorem bus_create_loop_runs (fate : Nat → Outcome) (tbl : MatchTable) (cs : List DeviceNode) :
    ∀ (parent : Option Nat) (prev : Option DeviceNode) (s : Kernel),
      Runs fate (planChildren tbl parent s.attempts cs) s
        (bus_create_loop fate cs tbl parent 0 prev s).1
        (bus_create_loop fate cs tbl parent 0 prev s).2.klist_devices
        (bus_create_loop fate cs tbl parent 0 prev s).2.attempts := by
  induction cs using forest_induction with
  | nil =>
    intro parent prev s
    simp only [bus_create_loop, planChildren, of_get_next_child_klist,
      of_get_next_child_attempts]
    exact runs_nil fate s
  | cons c rest ihc ihr =>
    intro parent prev s
    rw [bus_create_loop, planChildren, planNode_eq, create_eq]
    simp only [of_get_next_child_attempts, of_get_next_child_klist]
    by_cases hf : fate s.attempts = Outcome.ok
    · simp only [hf, if_true]
      obtain ⟨s1, hs1⟩ : ∃ s1 : Kernel, Kernel.mk
          (s.klist_devices ++ [newDevice s.attempts c none parent])
          (of_get_next_child prev (some c) s).kref (s.attempts + 1) = s1 := ⟨_, rfl⟩
      rw [hs1]
      have hk1 : s1.klist_devices = s.klist_devices ++ [newDevice s.attempts c none parent] := by
        rw [← hs1]
      have ha1 : s1.attempts = s.attempts + 1 := by rw [← hs1]
      by_cases hm : tbl c = true
      · have hm2 : ¬ of_match_node tbl c = false := by simp [of_match_node, hm]
        simp only [hm2, hm, if_true, if_false, newDevice_addr, bus_create_eq, List.cons_append,
          List.length_cons]
        have hc := ihc (some s.attempts) none s1
        rw [ha1] at hc
        by_cases h0 : (bus_create_loop fate c.children tbl (some s.attempts) 0 none s1).1 = 0
        · simp only [h0, ne_eq, not_true_eq_false, if_false]
          have hr := ihr parent (some c)
            (bus_create_loop fate c.children tbl (some s.attempts) 0 none s1).2
          have hz := runs_zero hc h0
          rw [hz.2.2, ha1] at hr
          have := runs_append_ok hc h0 rfl rfl hr
          have e : s.attempts + ((planChildren tbl (some s.attempts) (s.attempts + 1)
              c.children).length + 1) = s.attempts + 1 + (planChildren tbl (some s.attempts)
              (s.attempts + 1) c.children).length := by omega
          rw [e]
          exact runs_cons fate _ _ s s1 _ _ _ rfl hf hk1 ha1 this
        · simp only [h0, ne_eq, not_false_eq_true, if_true, of_node_put_klist,
            of_node_put_attempts]
          exact runs_cons fate _ _ s s1 _ _ _ rfl hf hk1 ha1 (runs_append_fail hc h0 _)
      · have hm2 : of_match_node tbl c = false := by simpa [of_match_node] using hm
        simp only [hm2, hm, if_true, if_false, List.cons_append, List.nil_append,
          List.length_cons, List.length_nil]
        have hr := ihr parent (some c) s1
        rw [ha1] at hr
        exact runs_cons fate _ _ s s1 _ _ _ rfl hf hk1 ha1 hr
    · simp only [hf, if_false, of_node_put_klist, of_node_put_attempts]
      exact runs_fail fate _ _ s rfl hf

/-! ## Reference counts -/

theorem create_kref (fate : Nat → Outcome) (np : DeviceNode) (bus_id : Option String)
    (parent : Option Nat) (s : Kernel) :
    (of_platform_device_create fate np bus_id parent s).2.kref = s.kref := by
  rw [create_eq]; split <;> rfl

theorem put_get_kref (prev : Option DeviceNode) (c : DeviceNode) (s s2 : Kernel)
    (h : s2.kref = (of_get_next_child prev (some c) s).kref) :
    (of_node_put c s2).kref = (of_get_next_child prev none s).kref := by
  funext a
  cases prev with
  | none =>
    simp only [of_node_put, h, of_get_next_child, of_node_get]
    split <;> simp
  | some p =>
    simp only [of_node_put, h, of_get_next_child, of_node_get]
    split <;> split <;> simp

theorem next_child_kref (prev : Option DeviceNode) (c : DeviceNode) (s s2 : Kernel)
    (h : s2.kref = (of_get_next_child prev (some c) s).kref) :
    (of_get_next_child (some c) none s2).kref = (of_get_next_child prev none s).kref :=
  put_get_kref prev c s s2 h

theorem bus_create_loop_kref (fate : Nat → Outcome) (tbl : MatchTable) (cs : List DeviceNode) :
    ∀ (parent : Option Nat) (rc : Int) (prev : Option DeviceNode) (s : Kernel),
      (bus_create_loop fate cs tbl parent rc prev s).2.kref =
        (of_get_next_child prev none s).kref := by
  induction cs using forest_induction with
  | nil => intro parent rc prev s; simp only [bus_create_loop]
  | cons c rest ihc ihr =>
    intro parent rc prev s
    rw [bus_create_loop]
    have hk := create_kref fate c none parent (of_get_next_child prev (some c) s)
    generalize of_platform_device_create fate c none parent
      (of_get_next_child prev (some c) s) = r at hk
    obtain ⟨dev, s2⟩ := r
    simp only at hk
    cases dev with
    | none => exact put_get_kref prev c s s2 hk
    | some dev =>
      simp only
      by_cases hm : of_match_node tbl c = false
      · simp only [hm, if_true]
        rw [ihr]
        exact next_child_kref prev c s s2 hk
      · rw [if_neg hm]
        by_cases h0 : rc = 0
        · simp only [h0, if_true, bus_create_eq]
          have h3 := ihc (some dev.addr) 0 none s2
          generalize bus_create_loop fate c.children tbl (some dev.addr) 0 none s2 = r3 at h3
          have h3' : r3.2.kref = (of_get_next_child prev (some c) s).kref := by
            rw [h3, ← hk]; rfl
          by_cases h1 : r3.1 ≠ 0
          · rw [if_pos h1]; exact put_get_kref prev c s _ h3'
          · rw [if_neg h1, ihr]; exact next_child_kref prev c s _ h3'
        · simp only [h0, if_false, ne_eq, not_false_eq_true, if_true]
          exact put_get_kref prev c s s2 hk

/-! ## The probe loop -/

theorem runs_congr {fate : Nat → Outcome} {P : List OfDevice} {s s1 : Kernel} {rc : Int}
    {devs : List OfDevice} {n : Nat} (h1 : s1.klist_devices = s.klist_devices)
    (h2 : s1.attempts = s.attempts) (h : Runs fate P s1 rc devs n) : Runs fate P s rc devs n := by
  unfold Runs at *
  rw [h1, h2] at h
  exact h

theorem bus_create_runs (fate : Nat → Outcome) (tbl : MatchTable) (bus : DeviceNode)
    (parent : Option Nat) (s : Kernel) :
    Runs fate (planChildren tbl parent s.attempts bus.children) s
      (of_platform_bus_create fate bus tbl parent s).1
      (of_platform_bus_create fate bus tbl parent s).2.klist_devices
      (of_platform_bus_create fate bus tbl parent s).2.attempts := by
  rw [bus_create_eq]; exact bus_create_loop_runs fate tbl _ parent none s

theorem bus_create_kref (fate : Nat → Outcome) (tbl : MatchTable) (bus : DeviceNode)
    (parent : Option Nat) (s : Kernel) :
    (of_platform_bus_create fate bus tbl parent s).2.kref = s.kref := by
  rw [bus_create_eq, bus_create_loop_kref]; rfl

/-- Creating the device of a matching node and then walking its children follows
`planNode`. -/
theorem create_then_bus_create_runs (fate : Nat → Outcome) (tbl : MatchTable)
    (c : DeviceNode) (parent : Option Nat) (s : Kernel) (hm : tbl c = true) :
    Runs fate (planNode tbl parent s.attempts c) s
      (probe_node fate c tbl parent s).1
      (probe_node fate c tbl parent s).2.klist_devices
      (probe_node fate c tbl parent s).2.attempts := by
  rw [probe_node, create_eq, planNode_eq, if_pos hm]
  by_cases hf : fate s.attempts = Outcome.ok
  · simp only [hf, if_true, newDevice_addr]
    exact runs_cons fate _ _ s _ _ _ _ rfl hf rfl rfl
      (bus_create_runs fate tbl c (some s.attempts)
        (Kernel.mk (s.klist_devices ++ [newDevice s.attempts c none parent]) s.kref
          (s.attempts + 1)))
  · simp only [hf, if_false]
    exact runs_fail fate _ _ s rfl hf

theorem create_then_bus_create_kref (fate : Nat → Outcome) (tbl : MatchTable)
    (c : DeviceNode) (parent : Option Nat) (s : Kernel) :
    (probe_node fate c tbl parent s).2.kref
      = s.kref := by
  have hk := create_kref fate c none parent s
  rw [probe_node]
  generalize of_platform_device_create fate c none parent s = r at hk
  obtain ⟨dev, s2⟩ := r
  cases dev with
  | none => exact hk
  | some dev => simp only; rw [bus_create_kref]; exact hk

theorem bus_probe_loop_runs (fate : Nat → Outcome) (tbl : MatchTable) (cs : List DeviceNode) :
    ∀ (parent : Option Nat) (prev : Option DeviceNode) (s : Kernel),
      Runs fate (planProbeChildren tbl parent s.attempts cs) s
        (bus_probe_loop fate cs tbl parent 0 prev s).1
        (bus_probe_loop fate cs tbl parent 0 prev s).2.klist_devices
        (bus_probe_loop fate cs tbl parent 0 prev s).2.attempts := by
  induction cs with
  | nil =>
    intro parent prev s
    simp only [bus_probe_loop, planProbeChildren, of_get_next_child_klist,
      of_get_next_child_attempts]
    exact runs_nil fate s
  | cons c rest ih =>
    intro parent prev s
    rw [bus_probe_loop, planProbeChildren]
    by_cases hm : tbl c = true
    · have hm2 : ¬ of_match_node tbl c = false := by simp [of_match_node, hm]
      rw [if_neg hm2, if_pos hm]
      have hc := create_then_bus_create_runs fate tbl c parent
        (of_get_next_child prev (some c) s) hm
      generalize probe_node fate c tbl parent (of_get_next_child prev (some c) s) = r at hc
      simp only [of_get_next_child_attempts] at hc
      have hc' : Runs fate (planNode tbl parent s.attempts c) s r.1 r.2.klist_devices
          r.2.attempts := runs_congr (by simp) (by simp) hc
      by_cases h0 : r.1 = 0
      · simp only [h0, ne_eq, not_true_eq_false, if_false]
        have hz := runs_zero hc' h0
        have hr := ih parent (some c) r.2
        rw [hz.2.2] at hr
        exact runs_append_ok hc' h0 rfl rfl hr
      · simp only [h0, ne_eq, not_false_eq_true, if_true, of_node_put_klist,
          of_node_put_attempts]
        exact runs_append_fail hc' h0 _
    · have hm2 : of_match_node tbl c = false := by simpa [of_match_node] using hm
      rw [if_pos hm2, if_neg hm]
      have hr := ih parent (some c) (of_get_next_child prev (some c) s)
      simp only [of_get_next_child_attempts] at hr
      exact runs_congr (by simp) (by simp) hr

theorem bus_probe_loop_kref (fate : Nat → Outcome) (tbl : MatchTable) (cs : List DeviceNode) :
    ∀ (parent : Option Nat) (rc : Int) (prev : Option DeviceNode) (s : Kernel),
      (bus_probe_loop fate cs tbl parent rc prev s).2.kref =
        (of_get_next_child prev none s).kref := by
  induction cs with
  | nil => intro parent rc prev s; simp only [bus_probe_loop]
  | cons c rest ih =>
    intro parent rc prev s
    rw [bus_probe_loop]
    by_cases hm : of_match_node tbl c = false
    · rw [if_pos hm, ih]
      exact next_child_kref prev c s _ rfl
    · rw [if_neg hm]
      have hk := create_then_bus_create_kref fate tbl c parent
        (of_get_next_child prev (some c) s)
      generalize probe_node fate c tbl parent (of_get_next_child prev (some c) s) = r at hk
      obtain ⟨rc1, s3⟩ := r
      simp only at hk ⊢
      by_cases h1 : rc1 ≠ 0
      · rw [if_pos h1]; exact put_get_kref prev c s _ hk
      · rw [if_neg h1, ih]; exact next_child_kref prev c s _ hk

/-! ## The probe -/

theorem probe_eq (pf : Platform) (fate : Nat → Outcome) (root : Option DeviceNode)
    (arg : MatchesArg) (parent : Option Nat) (s : Kernel) :
    of_platform_bus_probe pf fate root arg parent s =
      match resolveTable pf arg with
      | none => (-EINVAL, s)
      | some tbl =>
        if tbl (resolveRoot pf root) = true then
          ((probe_node fate (resolveRoot pf root) tbl parent
              (of_node_get (resolveRoot pf root) s)).1,
            of_node_put (resolveRoot pf root)
              (probe_node fate (resolveRoot pf root) tbl parent
                (of_node_get (resolveRoot pf root) s)).2)
        else
          ((bus_probe_loop fate (resolveRoot pf root).children tbl parent 0 none
              (of_node_get (resolveRoot pf root) s)).1,
            of_node_put (resolveRoot pf root)
              (bus_probe_loop fate (resolveRoot pf root).children tbl parent 0 none
                (of_node_get (resolveRoot pf root) s)).2) := by
  unfold of_platform_bus_probe
  cases arg <;> cases root <;>
    simp only [resolveTable, resolveRoot, of_find_node_by_path, of_match_node]

theorem probe_refused (pf : Platform) (fate : Nat → Outcome) (root : Option DeviceNode)
    (arg : MatchesArg) (parent : Option Nat) (s : Kernel) (h : resolveTable pf arg = none) :
    of_platform_bus_probe pf fate root arg parent s = (-EINVAL, s) := by
  rw [probe_eq, h]

theorem probe_runs (pf : Platform) (fate : Nat → Outcome) (root : Option DeviceNode)
    (arg : MatchesArg) (parent : Option Nat) (s : Kernel) (tbl : MatchTable)
    (h : resolveTable pf arg = some tbl) :
    Runs fate (planProbe tbl parent s.attempts (resolveRoot pf root)) s
      (of_platform_bus_probe pf fate root arg parent s).1
      (of_platform_bus_probe pf fate root arg parent s).2.klist_devices
      (of_platform_bus_probe pf fate root arg parent s).2.attempts := by
  rw [probe_eq, h]
  simp only [planProbe]
  by_cases hm : tbl (resolveRoot pf root) = true
  · simp only [hm, if_true, of_node_put_klist, of_node_put_attempts]
    exact runs_congr rfl rfl
      (create_then_bus_create_runs fate tbl _ parent _ hm)
  · simp only [hm, if_false, of_node_put_klist, of_node_put_attempts]
    exact runs_congr rfl rfl
      (bus_probe_loop_runs fate tbl _ parent none _)

theorem get_put_kref (np : DeviceNode) (s s2 : Kernel)
    (h : s2.kref = (of_node_get np s).kref) : (of_node_put np s2).kref = s.kref := by
  funext a
  simp only [of_node_put, h, of_node_get]
  split <;> simp

theorem probe_kref (pf : Platform) (fate : Nat → Outcome) (root : Option DeviceNode)
    (arg : MatchesArg) (parent : Option Nat) (s : Kernel) :
    (of_platform_bus_probe pf fate root arg parent s).2.kref = s.kref := by
  rw [probe_eq]
  cases resolveTable pf arg with
  | none => rfl
  | some tbl =>
    simp only
    split
    · exact get_put_kref _ s _ (create_then_bus_create_kref fate tbl _ parent _)
    · apply get_put_kref _ s _
      rw [bus_probe_loop_kref]; rfl

/-! ## Creation, lookup and the refused probe -/

/-- C1: a probe called with the sentinel `OF_NO_DEEP_PROBE` as match table returns
`-EINVAL` and leaves the whole state as it was: no device is registered, no creation is
attempted and no node reference count changes. -/
theorem probe_sentinel_returns_einval (pf : Platform) (fate : Nat → Outcome)
    (root : Option DeviceNode) (parent : Option Nat) (s : Kernel) :
    of_platform_bus_probe pf fate root MatchesArg.OF_NO_DEEP_PROBE parent s = (-EINVAL, s) ∧
      -EINVAL = (-22 : Int) :=
  ⟨probe_refused pf fate root _ parent s rfl, rfl⟩

/-- C2: for every probe call, whatever the tree, the table, the parent, the root argument
and the failures, the reference count of the root node the call uses is the same after
the call as before it. -/
theorem probe_root_refcount_balanced (pf : Platform) (fate : Nat → Outcome)
    (root : Option DeviceNode) (arg : MatchesArg) (parent : Option Nat) (s : Kernel) :
    (of_platform_bus_probe pf fate root arg parent s).2.kref (resolveRoot pf root).addr =
      s.kref (resolveRoot pf root).addr := by
  rw [probe_kref]

/-- C10: `of_platform_device_create` either fails, exactly when the allocation or the
registration fails, and then returns NULL and leaves the registry as it was, or succeeds
and then the registry is the old one followed by exactly one new device, the device
returned, which is bound to the node, the bus id and the parent given. -/
theorem device_create_registers_iff_success (fate : Nat → Outcome) (np : DeviceNode)
    (bus_id : Option String) (parent : Option Nat) (s : Kernel) :
    (fate s.attempts ≠ Outcome.ok ∧
        (of_platform_device_create fate np bus_id parent s).1 = none ∧
        (of_platform_device_create fate np bus_id parent s).2.klist_devices =
          s.klist_devices) ∨
      (fate s.attempts = Outcome.ok ∧
        ∃ dev, (of_platform_device_create fate np bus_id parent s).1 = some dev ∧
          (of_platform_device_create fate np bus_id parent s).2.klist_devices =
            s.klist_devices ++ [dev] ∧
          dev.of_node = np ∧ dev.bus_id = bus_id ∧ dev.parent = parent ∧
          dev.dma_mask = 0xffffffff ∧ dev.bus = some BusType.of_platform_bus_type) := by
  rw [create_eq]
  by_cases hf : fate s.attempts = Outcome.ok
  · right
    rw [if_pos hf]
    exact ⟨hf, _, rfl, rfl, rfl, rfl, rfl, rfl, rfl⟩
  · left
    rw [if_neg hf]
    exact ⟨hf, rfl, rfl⟩

theorem find_some_iff_first {α : Type} (p : α → Bool) (l : List α) (d : α) :
    l.find? p = some d ↔
      ∃ pre post, l = pre ++ d :: post ∧ p d = true ∧ ∀ x ∈ pre, p x = false := by
  induction l with
  | nil => simp
  | cons a l ih =>
    by_cases ha : p a = true
    · rw [List.find?_cons_of_pos _ ha]
      constructor
      · intro h
        injection h with h
        subst h
        exact ⟨[], l, rfl, ha, by simp⟩
      · rintro ⟨pre, post, hl, hd, hpre⟩
        cases pre with
        | nil =>
          simp only [List.nil_append, List.cons.injEq] at hl
          rw [hl.1]
        | cons b pre =>
          simp only [List.cons_append, List.cons.injEq] at hl
          have := hpre b (by simp)
          rw [← hl.1, ha] at this
          exact absurd this (by simp)
    · rw [List.find?_cons_of_neg _ ha, ih]
      constructor
      · rintro ⟨pre, post, hl, hd, hpre⟩
        refine ⟨a :: pre, post, by simp [hl], hd, ?_⟩
        intro x hx
        rcases List.mem_cons.mp hx with rfl | hx
        · simpa using ha
        · exact hpre x hx
      · rintro ⟨pre, post, hl, hd, hpre⟩
        cases pre with
        | nil =>
          simp only [List.nil_append, List.cons.injEq] at hl
          rw [hl.1] at ha
          exact absurd hd ha
        | cons b pre =>
          simp only [List.cons_append, List.cons.injEq] at hl
          exact ⟨pre, post, hl.2, hd, fun x hx => hpre x (List.mem_cons_of_mem _ hx)⟩

theorem find_by_node_eq (np : DeviceNode) (s : Kernel) :
    of_find_device_by_node np s =
      (s.klist_devices.find? (fun d => of_dev_node_match d np), s) := by
  unfold of_find_device_by_node bus_find_device
  cases s.klist_devices.find? (fun d => of_dev_node_match d np) <;> rfl

theorem find_by_phandle_eq (ph : Nat) (s : Kernel) :
    of_find_device_by_phandle ph s =
      (s.klist_devices.find? (fun d => of_dev_phandle_match d ph), s) := by
  unfold of_find_device_by_phandle bus_find_device
  cases s.klist_devices.find? (fun d => of_dev_phandle_match d ph) <;> rfl

/-- C8: `of_find_device_by_node` returns the first registered device, in registry order,
whose node is the node asked for; it returns NULL exactly when no registered device has
that node; and it leaves the state, hence the registry, unchanged. -/
theorem find_by_node_returns_first (np : DeviceNode) (s : Kernel) :
    (∀ d, (of_find_device_by_node np s).1 = some d ↔
        ∃ pre post, s.klist_devices = pre ++ d :: post ∧ d.of_node.addr = np.addr ∧
          ∀ x ∈ pre, x.of_node.addr ≠ np.addr) ∧
      ((of_find_device_by_node np s).1 = none ↔
        ∀ d ∈ s.klist_devices, d.of_node.addr ≠ np.addr) ∧
      (of_find_device_by_node np s).2 = s := by
  rw [find_by_node_eq]
  refine ⟨fun d => ?_, ?_, rfl⟩
  · simp only [find_some_iff_first, of_dev_node_match, beq_iff_eq, beq_eq_false_iff_ne]
  · simp only [List.find?_eq_none, of_dev_node_match, beq_iff_eq]

/-- C7: `of_find_device_by_phandle` returns the first registered device, in registry order,
whose node carries the phandle asked for, and NULL exactly when no registered device has
such a node.  After a successful probe of a tree with phandles 5, 7 and 9, the lookup of 7
gives the device created from the node with phandle 7 and the lookup of 42 gives NULL. -/
theorem find_by_phandle_returns_first :
    (∀ (ph : Nat) (s : Kernel),
      (∀ d, (of_find_device_by_phandle ph s).1 = some d ↔
        ∃ pre post, s.klist_devices = pre ++ d :: post ∧ d.of_node.phandle = ph ∧
          ∀ x ∈ pre, x.of_node.phandle ≠ ph) ∧
      ((of_find_device_by_phandle ph s).1 = none ↔
        ∀ d ∈ s.klist_devices, d.of_node.phandle ≠ ph)) ∧
    ((of_platform_bus_probe ⟨phandleTable, phandleTree⟩ (fun _ => Outcome.ok)
        (some phandleTree) (MatchesArg.table phandleTable) none emptyKernel).1 = 0 ∧
      (of_platform_bus_probe ⟨phandleTable, phandleTree⟩ (fun _ => Outcome.ok)
        (some phandleTree) (MatchesArg.table phandleTable) none
        emptyKernel).2.klist_devices.map (fun d => (d.of_node.addr, d.of_node.phandle)) =
          [(10, 5), (11, 7), (12, 9)] ∧
      ((of_find_device_by_phandle 7
        (of_platform_bus_probe ⟨phandleTable, phandleTree⟩ (fun _ => Outcome.ok)
          (some phandleTree) (MatchesArg.table phandleTable) none emptyKernel).2).1.map
            (fun d => (d.addr, d.of_node.addr, d.of_node.phandle))) = some (1, 11, 7) ∧
      ((of_find_device_by_phandle 42
        (of_platform_bus_probe ⟨phandleTable, phandleTree⟩ (fun _ => Outcome.ok)
          (some phandleTree) (MatchesArg.table phandleTable) none emptyKernel).2).1.map
            (fun d => d.addr)) = none) := by
  refine ⟨fun ph s => ?_, by decide, by decide, by decide, by decide⟩
  rw [find_by_phandle_eq]
  refine ⟨fun d => ?_, ?_⟩
  · simp only [find_some_iff_first, of_dev_phandle_match, beq_iff_eq, beq_eq_false_iff_ne]
  · simp only [List.find?_eq_none, of_dev_phandle_match, beq_iff_eq]

/-! ## Status of the walk -/

theorem consecutive_append (P Q : List OfDevice) :
    ∀ b, Consecutive b P → Consecutive (b + P.length) Q → Consecutive b (P ++ Q) := by
  induction P with
  | nil => intro b _ h; simpa using h
  | cons d P ih =>
    intro b hP hQ
    refine ⟨hP.1, ih (b + 1) hP.2 ?_⟩
    have e : b + 1 + P.length = b + (d :: P).length := by simp only [List.length_cons]; omega
    rw [e]; exact hQ

theorem planChildren_consecutive (tbl : MatchTable) (cs : List DeviceNode) :
    ∀ (parent : Option Nat) (b : Nat), Consecutive b (planChildren tbl parent b cs) := by
  induction cs using forest_induction with
  | nil => intro parent b; simp only [planChildren]; trivial
  | cons c rest ihc ihr =>
    intro parent b
    rw [planChildren]
    refine consecutive_append _ _ b ?_ (ihr parent _)
    rw [planNode_eq]
    refine ⟨rfl, ?_⟩
    split
    · exact ihc (some b) (b + 1)
    · trivial

theorem planNode_consecutive (tbl : MatchTable) (c : DeviceNode) (parent : Option Nat)
    (b : Nat) : Consecutive b (planNode tbl parent b c) := by
  rw [planNode_eq]
  refine ⟨rfl, ?_⟩
  split
  · exact planChildren_consecutive tbl _ (some b) (b + 1)
  · trivial

theorem planProbeChildren_consecutive (tbl : MatchTable) (cs : List DeviceNode) :
    ∀ (parent : Option Nat) (b : Nat), Consecutive b (planProbeChildren tbl parent b cs) := by
  induction cs with
  | nil => intro parent b; simp only [planProbeChildren]; trivial
  | cons c rest ih =>
    intro parent b
    rw [planProbeChildren]
    split
    · exact consecutive_append _ _ b (planNode_consecutive tbl c parent b) (ih parent _)
    · exact ih parent b

theorem planProbe_consecutive (tbl : MatchTable) (root : DeviceNode) (parent : Option Nat)
    (b : Nat) : Consecutive b (planProbe tbl parent b root) := by
  unfold planProbe
  split
  · exact planNode_consecutive tbl root parent b
  · exact planProbeChildren_consecutive tbl _ parent b

/-- Walking a plan with consecutive addresses fails exactly when one of the attempts made
fails; the attempts made are those numbered from `b` up to the counter afterwards. -/
theorem consecutive_fail_iff (fate : Nat → Outcome) (P : List OfDevice) :
    ∀ b, Consecutive b P →
      (¬ P.all (fateOk fate) = true ↔
        ∃ i, b ≤ i ∧ i < b + min ((P.takeWhile (fateOk fate)).length + 1) P.length ∧
          fate i ≠ Outcome.ok) := by
  induction P with
  | nil =>
    intro b _
    simp only [List.all_nil, not_true_eq_false, List.takeWhile_nil, List.length_nil,
      Nat.min_zero, Nat.add_zero, false_iff, not_exists]
    intro i hi
    omega
  | cons d P ih =>
    intro b hP
    obtain ⟨hd, hP⟩ := hP
    by_cases hok : fateOk fate d = true
    · have hfb : fate b = Outcome.ok := by simpa [fateOk, hd] using hok
      rw [List.all_cons, hok, Bool.true_and, List.takeWhile_cons_of_pos hok, ih (b + 1) hP]
      simp only [List.length_cons]
      constructor
      · rintro ⟨i, h1, h2, h3⟩
        exact ⟨i, by omega, by omega, h3⟩
      · rintro ⟨i, h1, h2, h3⟩
        have : i ≠ b := fun e => h3 (e ▸ hfb)
        exact ⟨i, by omega, by omega, h3⟩
    · have hfb : fate b ≠ Outcome.ok := by simpa [fateOk, hd] using hok
      rw [List.all_cons, List.takeWhile_cons_of_neg hok]
      simp only [hok, Bool.false_and, List.length_nil, List.length_cons]
      constructor
      · intro _
        exact ⟨b, le_refl b, by omega, hfb⟩
      · intro _; simp

theorem runs_status (fate : Nat → Outcome) (P : List OfDevice) (s : Kernel) (rc : Int)
    (devs : List OfDevice) (n : Nat) (h : Runs fate P s rc devs n)
    (hP : Consecutive s.attempts P) :
    (rc = 0 ∨ rc = -ENOMEM) ∧
      (rc = -ENOMEM ↔ ∃ i, s.attempts ≤ i ∧ i < n ∧ fate i ≠ Outcome.ok) ∧
      (rc = 0 ↔ ∀ i, s.attempts ≤ i → i < n → fate i = Outcome.ok) := by
  have key := consecutive_fail_iff fate P s.attempts hP
  obtain ⟨ha, _, hc⟩ := h
  rw [← hc] at key
  by_cases hall : P.all (fateOk fate) = true
  · rw [if_pos hall] at ha
    have hno : ¬ ∃ i, s.attempts ≤ i ∧ i < n ∧ fate i ≠ Outcome.ok :=
      fun h => (key.mpr h) hall
    refine ⟨Or.inl ha, ?_, ?_⟩
    · constructor
      · intro h; rw [ha] at h; exact absurd h.symm ENOMEM_ne
      · intro h; exact absurd h hno
    · constructor
      · intro _ i h1 h2
        by_contra h3
        exact hno ⟨i, h1, h2, h3⟩
      · intro _; exact ha
  · rw [if_neg hall] at ha
    have hyes := key.mp hall
    refine ⟨Or.inr ha, ?_, ?_⟩
    · exact ⟨fun _ => hyes, fun _ => ha⟩
    · constructor
      · intro h; rw [ha] at h; exact absurd h ENOMEM_ne
      · intro h
        obtain ⟨i, h1, h2, h3⟩ := hyes
        exact absurd (h i h1 h2) h3

/-- C9: a probe whose table is not the sentinel returns `-ENOMEM` if and only if one of
the creation attempts made during the call failed, and 0 otherwise; no other status is
returned. -/
theorem probe_status_reports_failure (pf : Platform) (fate : Nat → Outcome)
    (root : Option DeviceNode) (arg : MatchesArg) (parent : Option Nat) (s : Kernel)
    (harg : arg ≠ MatchesArg.OF_NO_DEEP_PROBE) :
    ((of_platform_bus_probe pf fate root arg parent s).1 = -ENOMEM ↔
        ∃ i, s.attempts ≤ i ∧ i < (of_platform_bus_probe pf fate root arg parent s).2.attempts ∧
          fate i ≠ Outcome.ok) ∧
      ((of_platform_bus_probe pf fate root arg parent s).1 = 0 ↔
        ∀ i, s.attempts ≤ i →
          i < (of_platform_bus_probe pf fate root arg parent s).2.attempts →
          fate i = Outcome.ok) ∧
      ((of_platform_bus_probe pf fate root arg parent s).1 = 0 ∨
        (of_platform_bus_probe pf fate root arg parent s).1 = -ENOMEM) := by
  obtain ⟨tbl, htbl⟩ : ∃ tbl, resolveTable pf arg = some tbl := by
    cases arg with
    | null => exact ⟨_, rfl⟩
    | OF_NO_DEEP_PROBE => exact absurd rfl harg
    | table t => exact ⟨_, rfl⟩
  have h := runs_status fate _ s _ _ _ (probe_runs pf fate root arg parent s tbl htbl)
    (planProbe_consecutive tbl _ parent s.attempts)
  exact ⟨h.2.1, h.2.2, h.1⟩

/-! ## Which nodes a plan visits -/

theorem nodeAddrsOf_append (P Q : List OfDevice) :
    nodeAddrsOf (P ++ Q) = nodeAddrsOf P ++ nodeAddrsOf Q := by
  simp [nodeAddrsOf]

theorem addrs_eq (c : DeviceNode) : c.addrs = c.addr :: addrsList c.children := by
  cases c; simp [DeviceNode.addrs, DeviceNode.addr, DeviceNode.children]

theorem addr_mem_addrs (c : DeviceNode) : c.addr ∈ c.addrs := by
  rw [addrs_eq]; exact List.mem_cons_self _ _

theorem addrs_subset_addrsList {c : DeviceNode} {cs : List DeviceNode} (h : c ∈ cs) :
    c.addrs ⊆ addrsList cs := by
  induction cs with
  | nil => cases h
  | cons x xs ih =>
    rw [addrsList]
    rcases List.mem_cons.mp h with rfl | h
    · exact List.subset_append_left _ _
    · exact fun a ha => List.mem_append_right _ (ih h ha)

theorem planChildren_sublist (tbl : MatchTable) (cs : List DeviceNode) :
    ∀ (parent : Option Nat) (b : Nat),
      List.Sublist (nodeAddrsOf (planChildren tbl parent b cs)) (addrsList cs) := by
  induction cs using forest_induction with
  | nil => intro parent b; simp [planChildren, nodeAddrsOf, addrsList]
  | cons c rest ihc ihr =>
    intro parent b
    rw [planChildren, addrsList, nodeAddrsOf_append]
    refine List.Sublist.append ?_ (ihr parent _)
    rw [planNode_eq, addrs_eq]
    simp only [nodeAddrsOf, List.map_cons]
    refine List.Sublist.cons₂ _ ?_
    split
    · exact ihc (some b) (b + 1)
    · exact List.nil_sublist _

theorem planNode_sublist (tbl : MatchTable) (c : DeviceNode) (parent : Option Nat) (b : Nat) :
    List.Sublist (nodeAddrsOf (planNode tbl parent b c)) c.addrs := by
  rw [planNode_eq, addrs_eq]
  simp only [nodeAddrsOf, List.map_cons]
  refine List.Sublist.cons₂ _ ?_
  split
  · exact planChildren_sublist tbl _ (some b) (b + 1)
  · exact List.nil_sublist _

theorem planProbeChildren_sublist (tbl : MatchTable) (cs : List DeviceNode) :
    ∀ (parent : Option Nat) (b : Nat),
      List.Sublist (nodeAddrsOf (planProbeChildren tbl parent b cs)) (addrsList cs) := by
  induction cs with
  | nil => intro parent b; simp [planProbeChildren, nodeAddrsOf, addrsList]
  | cons c rest ih =>
    intro parent b
    rw [planProbeChildren, addrsList]
    split
    · rw [nodeAddrsOf_append]
      exact List.Sublist.append (planNode_sublist tbl c parent b) (ih parent _)
    · exact (ih parent b).trans (List.sublist_append_right _ _)

theorem planProbe_sublist (tbl : MatchTable) (root : DeviceNode) (parent : Option Nat)
    (b : Nat) : List.Sublist (nodeAddrsOf (planProbe tbl parent b root)) root.addrs := by
  unfold planProbe
  split
  · exact planNode_sublist tbl root parent b
  · rw [addrs_eq]
    exact (planProbeChildren_sublist tbl _ parent b).trans (List.sublist_cons_self _ _)

theorem mem_planChildren_of_mem (tbl : MatchTable) (c : DeviceNode) (cs : List DeviceNode)
    (h : c ∈ cs) : ∀ (parent : Option Nat) (b : Nat),
      ∃ d ∈ planChildren tbl parent b cs, d.of_node = c ∧ d.parent = parent := by
  induction cs with
  | nil => cases h
  | cons x xs ih =>
    intro parent b
    rw [planChildren]
    rcases List.mem_cons.mp h with rfl | h
    · refine ⟨newDevice b c none parent, ?_, rfl, rfl⟩
      rw [planNode_eq]
      exact List.mem_append_left _ (List.mem_cons_self _ _)
    · obtain ⟨d, hd, hn⟩ := ih h parent (b + (planNode tbl parent b x).length)
      exact ⟨d, List.mem_append_right _ hd, hn⟩

theorem mem_planProbeChildren_of_mem (tbl : MatchTable) (c : DeviceNode)
    (cs : List DeviceNode) (h : c ∈ cs) (hm : tbl c = true) :
    ∀ (parent : Option Nat) (b : Nat),
      ∃ d ∈ planProbeChildren tbl parent b cs, d.of_node = c ∧ d.parent = parent := by
  induction cs with
  | nil => cases h
  | cons x xs ih =>
    intro parent b
    rw [planProbeChildren]
    rcases List.mem_cons.mp h with rfl | h
    · rw [if_pos hm]
      refine ⟨newDevice b c none parent, ?_, rfl, rfl⟩
      rw [planNode_eq]
      exact List.mem_append_left _ (List.mem_cons_self _ _)
    · split
      · obtain ⟨d, hd, hn⟩ := ih h parent (b + (planNode tbl parent b x).length)
        exact ⟨d, List.mem_append_right _ hd, hn⟩
      · exact ih h parent b

theorem planProbeChildren_origin (tbl : MatchTable) (cs : List DeviceNode) :
    ∀ (parent : Option Nat) (b : Nat) (d : OfDevice),
      d ∈ planProbeChildren tbl parent b cs →
      ∃ c ∈ cs, tbl c = true ∧ d.of_node.addr ∈ c.addrs := by
  induction cs with
  | nil => intro parent b d h; simp [planProbeChildren] at h
  | cons x xs ih =>
    intro parent b d h
    rw [planProbeChildren] at h
    split at h
    · rename_i hx
      rcases List.mem_append.mp h with h | h
      · refine ⟨x, List.mem_cons_self _ _, hx, ?_⟩
        exact (planNode_sublist tbl x parent b).subset (List.mem_map_of_mem _ h)
      · obtain ⟨c, hc, hm, ha⟩ := ih parent _ d h
        exact ⟨c, List.mem_cons_of_mem _ hc, hm, ha⟩
    · obtain ⟨c, hc, hm, ha⟩ := ih parent _ d h
      exact ⟨c, List.mem_cons_of_mem _ hc, hm, ha⟩

theorem addrs_owner_unique (cs : List DeviceNode) (hn : (addrsList cs).Nodup)
    (c c' : DeviceNode) (hc : c ∈ cs) (hc' : c' ∈ cs) (a : Nat) (ha : a ∈ c.addrs)
    (ha' : a ∈ c'.addrs) : c = c' := by
  induction cs with
  | nil => cases hc
  | cons x xs ih =>
    rw [addrsList] at hn
    have hdis := List.disjoint_of_nodup_append hn
    rcases List.mem_cons.mp hc with h1 | h1
    · rcases List.mem_cons.mp hc' with h2 | h2
      · rw [h1, h2]
      · rw [h1] at ha
        exact absurd (addrs_subset_addrsList h2 ha') (fun h => hdis ha h)
    · rcases List.mem_cons.mp hc' with h2 | h2
      · rw [h2] at ha'
        exact absurd (addrs_subset_addrsList h1 ha) (fun h => hdis ha' h)
      · exact ih (List.Nodup.of_append_right hn) h1 h2

/-! ## Root-match exclusivity -/

theorem runs_all_ok {fate : Nat → Outcome} {P : List OfDevice} {s : Kernel} {rc : Int}
    {devs : List OfDevice} {n : Nat} (hok : ∀ i, fate i = Outcome.ok)
    (h : Runs fate P s rc devs n) :
    rc = 0 ∧ devs = s.klist_devices ++ P ∧ n = s.attempts + P.length := by
  have hall : P.all (fateOk fate) = true := by
    rw [List.all_eq_true]; intro d _; simp [fateOk, hok]
  have h0 : rc = 0 := by rw [h.1, if_pos hall]
  exact ⟨h0, (runs_zero h h0).2⟩

theorem probe_all_ok (pf : Platform) (fate : Nat → Outcome) (root : Option DeviceNode)
    (arg : MatchesArg) (parent : Option Nat) (s : Kernel) (tbl : MatchTable)
    (htbl : resolveTable pf arg = some tbl) (hok : ∀ i, fate i = Outcome.ok) :
    (of_platform_bus_probe pf fate root arg parent s).1 = 0 ∧
      (of_platform_bus_probe pf fate root arg parent s).2.klist_devices =
        s.klist_devices ++ planProbe tbl parent s.attempts (resolveRoot pf root) := by
  have h := runs_all_ok hok (probe_runs pf fate root arg parent s tbl htbl)
  exact ⟨h.1, h.2.1⟩

theorem newDevices_of_append (s s1 : Kernel) (P : List OfDevice)
    (h : s1.klist_devices = s.klist_devices ++ P) : newDevices s s1 = P := by
  unfold newDevices; rw [h, List.drop_left]

/-- C3: when every creation succeeds and the table is usable, a probe whose root matches
registers a device for every direct child of the root, and a probe whose root does not
match registers a device for a direct child exactly when that child matches. -/
theorem probe_root_match_exclusivity (pf : Platform) (fate : Nat → Outcome)
    (root : Option DeviceNode) (arg : MatchesArg) (parent : Option Nat) (s : Kernel)
    (tbl : MatchTable) (htbl : resolveTable pf arg = some tbl)
    (hok : ∀ i, fate i = Outcome.ok) (hnodup : (resolveRoot pf root).addrs.Nodup) :
    (tbl (resolveRoot pf root) = true →
      ∀ c ∈ (resolveRoot pf root).children,
        Materialized s (of_platform_bus_probe pf fate root arg parent s).2 c) ∧
    (tbl (resolveRoot pf root) = false →
      ∀ c ∈ (resolveRoot pf root).children,
        (Materialized s (of_platform_bus_probe pf fate root arg parent s).2 c ↔
          tbl c = true)) := by
  have hnew := newDevices_of_append s _ _ (probe_all_ok pf fate root arg parent s tbl htbl hok).2
  unfold Materialized
  rw [hnew]
  constructor
  · intro hm c hc
    rw [planProbe, if_pos hm, planNode_eq, if_pos hm]
    obtain ⟨d, hd, hn, _⟩ := mem_planChildren_of_mem tbl c _ hc (some s.attempts) (s.attempts + 1)
    exact ⟨d, List.mem_cons_of_mem _ hd, by rw [hn]⟩
  · intro hm c hc
    have hm' : ¬ tbl (resolveRoot pf root) = true := by simp [hm]
    rw [planProbe, if_neg hm']
    constructor
    · rintro ⟨d, hd, hda⟩
      obtain ⟨c', hc', hmc', ha⟩ := planProbeChildren_origin tbl _ parent _ d hd
      rw [addrs_eq] at hnodup
      have := addrs_owner_unique _ (List.Nodup.of_cons hnodup) c c' hc hc' d.of_node.addr
        (hda ▸ addr_mem_addrs c) ha
      rw [this]; exact hmc'
    · intro hmc
      obtain ⟨d, hd, hn, _⟩ := mem_planProbeChildren_of_mem tbl c _ hc hmc parent s.attempts
      exact ⟨d, hd, by rw [hn]⟩

/-- Witness for C3: the scenario tree probed with a table that does not match the root. -/
theorem probe_root_match_exclusivity_witness :
    (resolveTable socPlatform (MatchesArg.table bridgeTable) = some bridgeTable ∧
      (∀ i, allOk i = Outcome.ok) ∧
      (resolveRoot socPlatform (some socTree)).addrs.Nodup) ∧
    ((bridgeTable (resolveRoot socPlatform (some socTree)) = true →
      ∀ c ∈ (resolveRoot socPlatform (some socTree)).children,
        Materialized emptyKernel (of_platform_bus_probe socPlatform allOk (some socTree)
          (MatchesArg.table bridgeTable) none emptyKernel).2 c) ∧
    (bridgeTable (resolveRoot socPlatform (some socTree)) = false →
      ∀ c ∈ (resolveRoot socPlatform (some socTree)).children,
        (Materialized emptyKernel (of_platform_bus_probe socPlatform allOk (some socTree)
          (MatchesArg.table bridgeTable) none emptyKernel).2 c ↔
          bridgeTable c = true))) :=
  ⟨⟨rfl, fun _ => rfl, by decide⟩,
    probe_root_match_exclusivity socPlatform allOk (some socTree)
      (MatchesArg.table bridgeTable) none emptyKernel bridgeTable rfl (fun _ => rfl)
      (by decide)⟩

/-! ## The end-to-end scenario -/

/-- C6: probing `/soc` (matching) with the children `/soc/uart0` (not matching) and
`/soc/bridge` (matching, with the child `/soc/bridge/dev0`), every creation succeeding and
the registry empty at the start, returns 0 and registers exactly four devices, for `/soc`,
`/soc/uart0`, `/soc/bridge` and `/soc/bridge/dev0` in this order; no registered device has
the device of `/soc/uart0` as parent and the device of `/soc/bridge/dev0` has the device of
`/soc/bridge` as parent. -/
theorem probe_soc_scenario (pf : Platform) (fate : Nat → Outcome) (tbl : MatchTable)
    (s : Kernel) (hsoc : tbl socTree = true) (huart : tbl socUart0 = false)
    (hbridge : tbl socBridge = true) (hok : ∀ i, fate i = Outcome.ok)
    (hempty : s.klist_devices = []) :
    (of_platform_bus_probe pf fate (some socTree) (MatchesArg.table tbl) none s).1 = 0 ∧
    ∃ dSoc dUart dBridge dDev0 : OfDevice,
      (of_platform_bus_probe pf fate (some socTree) (MatchesArg.table tbl) none
        s).2.klist_devices = [dSoc, dUart, dBridge, dDev0] ∧
      dSoc.of_node = socTree ∧ dUart.of_node = socUart0 ∧ dBridge.of_node = socBridge ∧
      dDev0.of_node = socDev0 ∧
      dSoc.parent = none ∧ dUart.parent = some dSoc.addr ∧
      dBridge.parent = some dSoc.addr ∧ dDev0.parent = some dBridge.addr ∧
      (∀ d ∈ [dSoc, dUart, dBridge, dDev0], d.parent ≠ some dUart.addr) ∧
      [dSoc.addr, dUart.addr, dBridge.addr, dDev0.addr].Nodup := by
  have h := probe_all_ok pf fate (some socTree) (MatchesArg.table tbl) none s tbl rfl hok
  refine ⟨h.1, newDevice s.attempts socTree none none,
    newDevice (s.attempts + 1) socUart0 none (some s.attempts),
    newDevice (s.attempts + 2) socBridge none (some s.attempts),
    newDevice (s.attempts + 3) socDev0 none (some (s.attempts + 2)), ?_, rfl, rfl, rfl, rfl,
    rfl, rfl, rfl, rfl, ?_, ?_⟩
  · rw [h.2, hempty]
    have e1 : socTree.children = [socUart0, socBridge] := rfl
    have e2 : socBridge.children = [socDev0] := rfl
    have e3 : socDev0.children = [] := rfl
    simp [resolveRoot, planProbe, planNode_eq, planChildren, hsoc, huart, hbridge, e1, e2, e3]
  · simp [newDevice]
  · simp [newDevice]

/-- Witness for C6: the scenario with the table matching `/soc` and `/soc/bridge`. -/
theorem probe_soc_scenario_witness :
    (socTable socTree = true ∧ socTable socUart0 = false ∧ socTable socBridge = true ∧
      (∀ i, allOk i = Outcome.ok) ∧ emptyKernel.klist_devices = []) ∧
    ((of_platform_bus_probe socPlatform allOk (some socTree) (MatchesArg.table socTable) none
        emptyKernel).1 = 0 ∧
    ∃ dSoc dUart dBridge dDev0 : OfDevice,
      (of_platform_bus_probe socPlatform allOk (some socTree) (MatchesArg.table socTable) none
        emptyKernel).2.klist_devices = [dSoc, dUart, dBridge, dDev0] ∧
      dSoc.of_node = socTree ∧ dUart.of_node = socUart0 ∧ dBridge.of_node = socBridge ∧
      dDev0.of_node = socDev0 ∧
      dSoc.parent = none ∧ dUart.parent = some dSoc.addr ∧
      dBridge.parent = some dSoc.addr ∧ dDev0.parent = some dBridge.addr ∧
      (∀ d ∈ [dSoc, dUart, dBridge, dDev0], d.parent ≠ some dUart.addr) ∧
      [dSoc.addr, dUart.addr, dBridge.addr, dDev0.addr].Nodup) :=
  ⟨⟨by decide, by decide, by decide, fun _ => rfl, rfl⟩,
    probe_soc_scenario socPlatform allOk socTable emptyKernel (by decide) (by decide)
      (by decide) (fun _ => rfl) rfl⟩

/-! ## At most one device per node -/

theorem filter_length_eq_count (L : List OfDevice) (a : Nat) :
    (L.filter (fun d => d.of_node.addr == a)).length = (nodeAddrsOf L).count a := by
  induction L with
  | nil => rfl
  | cons d L ih =>
    by_cases h : d.of_node.addr = a
    · simp [nodeAddrsOf, List.filter_cons, h] at ih ⊢
      exact ih
    · have h' : (d.of_node.addr == a) = false := by simpa using h
      simp [nodeAddrsOf, List.filter_cons, h', List.count_cons, h] at ih ⊢
      exact ih

theorem onePerNode_iff (s : Kernel) : OnePerNode s ↔ (nodeAddrsOf s.klist_devices).Nodup := by
  rw [List.nodup_iff_count_le_one]
  unfold OnePerNode devicesFor of_dev_node_match
  constructor
  · intro h a
    have := h (DeviceNode.mk a "" 0 [])
    rw [← filter_length_eq_count]
    exact this
  · intro h np
    rw [filter_length_eq_count]
    exact h np.addr

theorem nodup_after_walk (fate : Nat → Outcome) (P : List OfDevice) (s : Kernel) (rc : Int)
    (devs : List OfDevice) (n : Nat) (h : Runs fate P s rc devs n) (tree : List Nat)
    (hsub : List.Sublist (nodeAddrsOf P) tree) (htree : tree.Nodup)
    (hs : (nodeAddrsOf s.klist_devices).Nodup)
    (hfresh : ∀ d ∈ s.klist_devices, d.of_node.addr ∉ tree) :
    (nodeAddrsOf devs).Nodup := by
  rw [h.2.1, nodeAddrsOf_append]
  have hT : List.Sublist (nodeAddrsOf (P.takeWhile (fateOk fate))) tree :=
    ((List.takeWhile_sublist _).map _).trans hsub
  refine List.Nodup.append hs (hT.nodup htree) ?_
  intro a ha ha'
  obtain ⟨d, hd, rfl⟩ := List.mem_map.mp ha
  exact hfresh d hd (hT.subset ha')

/-- C5 (amended): if no node has more than one registered device, a probe, or a call of
`of_platform_bus_create`, over a tree of distinct nodes none of which has a registered
device yet leaves at most one registered device per node. -/
theorem walk_keeps_one_device_per_node (pf : Platform) (fate : Nat → Outcome)
    (root : Option DeviceNode) (arg : MatchesArg) (parent : Option Nat) (s : Kernel)
    (bus : DeviceNode) (tbl : MatchTable) (hs : OnePerNode s)
    (hrootNodup : (resolveRoot pf root).addrs.Nodup)
    (hrootFresh : ∀ d ∈ s.klist_devices, d.of_node.addr ∉ (resolveRoot pf root).addrs)
    (hbusNodup : (addrsList bus.children).Nodup)
    (hbusFresh : ∀ d ∈ s.klist_devices, d.of_node.addr ∉ addrsList bus.children) :
    OnePerNode (of_platform_bus_probe pf fate root arg parent s).2 ∧
      OnePerNode (of_platform_bus_create fate bus tbl parent s).2 := by
  rw [onePerNode_iff] at hs
  constructor
  · rw [onePerNode_iff]
    cases htbl : resolveTable pf arg with
    | none => rw [probe_refused pf fate root arg parent s htbl]; exact hs
    | some t =>
      exact nodup_after_walk fate _ s _ _ _ (probe_runs pf fate root arg parent s t htbl) _
        (planProbe_sublist t _ parent s.attempts) hrootNodup hs hrootFresh
  · rw [onePerNode_iff]
    exact nodup_after_walk fate _ s _ _ _ (bus_create_runs fate tbl bus parent s) _
      (planChildren_sublist tbl _ parent s.attempts) hbusNodup hs hbusFresh

theorem emptyKernel_fresh (tree : List Nat) :
    ∀ d ∈ emptyKernel.klist_devices, d.of_node.addr ∉ tree := by
  intro d h
  simp [emptyKernel] at h

theorem emptyKernel_onePerNode : OnePerNode emptyKernel := fun _ => Nat.zero_le _

/-- Witness for C5 (amended): the scenario tree walked from the empty registry. -/
theorem walk_keeps_one_device_per_node_witness :
    (OnePerNode emptyKernel ∧ (resolveRoot socPlatform (some socTree)).addrs.Nodup ∧
      (∀ d ∈ emptyKernel.klist_devices,
        d.of_node.addr ∉ (resolveRoot socPlatform (some socTree)).addrs) ∧
      (addrsList socTree.children).Nodup ∧
      (∀ d ∈ emptyKernel.klist_devices, d.of_node.addr ∉ addrsList socTree.children)) ∧
    (OnePerNode (of_platform_bus_probe socPlatform allOk (some socTree)
        (MatchesArg.table socTable) none emptyKernel).2 ∧
      OnePerNode (of_platform_bus_create allOk socTree socTable none emptyKernel).2) :=
  ⟨⟨emptyKernel_onePerNode, by decide, emptyKernel_fresh _, by decide,
      emptyKernel_fresh _⟩,
    walk_keeps_one_device_per_node socPlatform allOk (some socTree)
      (MatchesArg.table socTable) none emptyKernel socTree socTable
      emptyKernel_onePerNode (by decide) (emptyKernel_fresh _) (by decide)
      (emptyKernel_fresh _)⟩

/-- C5 (as stated) fails: starting from the empty registry, two successful probes of the
same tree leave two registered devices for the node `/soc`. -/
theorem reprobe_registers_second_device :
    emptyKernel.klist_devices = [] ∧
    (of_platform_bus_probe socPlatform allOk (some socTree) (MatchesArg.table socTable) none
      emptyKernel).1 = 0 ∧
    (of_platform_bus_probe socPlatform allOk (some socTree) (MatchesArg.table socTable) none
      (of_platform_bus_probe socPlatform allOk (some socTree) (MatchesArg.table socTable) none
        emptyKernel).2).1 = 0 ∧
    (devicesFor
      (of_platform_bus_probe socPlatform allOk (some socTree) (MatchesArg.table socTable) none
        (of_platform_bus_probe socPlatform allOk (some socTree) (MatchesArg.table socTable)
          none emptyKernel).2).2 socTree).map (fun d => d.addr) = [0, 4] ∧
    ¬ OnePerNode
      (of_platform_bus_probe socPlatform allOk (some socTree) (MatchesArg.table socTable) none
        (of_platform_bus_probe socPlatform allOk (some socTree) (MatchesArg.table socTable)
          none emptyKernel).2).2 := by
  refine ⟨rfl, by decide, by decide, by decide, ?_⟩
  intro h
  exact absurd (h socTree) (by decide)

/-! ## Failure keeps what was registered -/

/-- Witness for C9: the scenario tree probed with the second creation failing. -/
theorem probe_status_reports_failure_witness :
    MatchesArg.table socTable ≠ MatchesArg.OF_NO_DEEP_PROBE ∧
    (((of_platform_bus_probe socPlatform (failsAt 1) (some socTree)
        (MatchesArg.table socTable) none emptyKernel).1 = -ENOMEM ↔
        ∃ i, emptyKernel.attempts ≤ i ∧
          i < (of_platform_bus_probe socPlatform (failsAt 1) (some socTree)
            (MatchesArg.table socTable) none emptyKernel).2.attempts ∧
          failsAt 1 i ≠ Outcome.ok) ∧
      ((of_platform_bus_probe socPlatform (failsAt 1) (some socTree)
        (MatchesArg.table socTable) none emptyKernel).1 = 0 ↔
        ∀ i, emptyKernel.attempts ≤ i →
          i < (of_platform_bus_probe socPlatform (failsAt 1) (some socTree)
            (MatchesArg.table socTable) none emptyKernel).2.attempts →
          failsAt 1 i = Outcome.ok) ∧
      ((of_platform_bus_probe socPlatform (failsAt 1) (some socTree)
        (MatchesArg.table socTable) none emptyKernel).1 = 0 ∨
        (of_platform_bus_probe socPlatform (failsAt 1) (some socTree)
          (MatchesArg.table socTable) none emptyKernel).1 = -ENOMEM)) ∧
    (of_platform_bus_probe socPlatform (failsAt 1) (some socTree)
      (MatchesArg.table socTable) none emptyKernel).1 = -ENOMEM ∧
    (of_platform_bus_probe socPlatform (failsAt 1) (some socTree)
      (MatchesArg.table socTable) none emptyKernel).2.attempts = 2 :=
  ⟨fun h => MatchesArg.noConfusion h,
    probe_status_reports_failure socPlatform (failsAt 1) (some socTree)
      (MatchesArg.table socTable) none emptyKernel (fun h => MatchesArg.noConfusion h),
    by decide, by decide⟩

/-! ## The note on the probe, reference balance and the phandle 0 -/

/-- C11: the note in the source says that children of the root get no device unless the
root matches and is not NULL.  The code does otherwise: with the root `/soc` not matching,
the matching child `/soc/bridge` gets a device (and so does `/soc/bridge/dev0` beneath it),
and with a NULL root the probe starts from the node of path "/" and, when that node
matches, gives a device to each of its children. -/
theorem probe_creates_children_of_unmatched_root :
    (bridgeTable socTree = false ∧
      (of_platform_bus_probe socPlatform allOk (some socTree) (MatchesArg.table bridgeTable)
        none emptyKernel).1 = 0 ∧
      (newDevices emptyKernel
        (of_platform_bus_probe socPlatform allOk (some socTree) (MatchesArg.table bridgeTable)
          none emptyKernel).2).map (fun d => d.of_node.full_name) =
        ["/soc/bridge", "/soc/bridge/dev0"] ∧
      socTree.children.map (fun c => c.full_name) = ["/soc/uart0", "/soc/bridge"]) ∧
    ((of_platform_bus_probe socPlatform allOk none (MatchesArg.table socTable)
        none emptyKernel).1 = 0 ∧
      (newDevices emptyKernel
        (of_platform_bus_probe socPlatform allOk none (MatchesArg.table socTable)
          none emptyKernel).2).map (fun d => d.of_node.full_name) =
        ["/soc", "/soc/uart0", "/soc/bridge", "/soc/bridge/dev0"]) := by
  refine ⟨⟨by decide, by decide, by decide, by decide⟩, by decide, by decide⟩

/-- C15: after `of_platform_bus_create` and after `of_platform_bus_probe` return, whatever
the tree, the table and the failures, the reference count of every node is what it was
before the call: each reference taken by the child iteration is given back, by the
iteration itself when it advances or ends and by the explicit put when the loop is left
early. -/
theorem iteration_references_balanced (pf : Platform) (fate : Nat → Outcome)
    (root : Option DeviceNode) (arg : MatchesArg) (bus : DeviceNode) (tbl : MatchTable)
    (parent : Option Nat) (s : Kernel) :
    (∀ a : Nat, (of_platform_bus_create fate bus tbl parent s).2.kref a = s.kref a) ∧
      (∀ a : Nat, (of_platform_bus_probe pf fate root arg parent s).2.kref a = s.kref a) := by
  constructor
  · intro a; rw [bus_create_kref]
  · intro a; rw [probe_kref]

/-- C18: `of_find_device_by_phandle` does not treat the phandle 0 specially: when some
registered device has a node whose phandle field is 0, the lookup of 0 returns a device,
namely the first registered one whose node has the phandle field 0. -/
theorem find_by_phandle_zero_returns_device (s : Kernel)
    (h : ∃ d ∈ s.klist_devices, d.of_node.phandle = 0) :
    ∃ d, (of_find_device_by_phandle 0 s).1 = some d ∧ d.of_node.phandle = 0 ∧
      ∃ pre post, s.klist_devices = pre ++ d :: post ∧
        ∀ x ∈ pre, x.of_node.phandle ≠ 0 := by
  rw [find_by_phandle_eq]
  cases hf : s.klist_devices.find? (fun d => of_dev_phandle_match d 0) with
  | none =>
    obtain ⟨d, hd, hp⟩ := h
    have := List.find?_eq_none.mp hf d hd
    simp [of_dev_phandle_match, hp] at this
  | some d =>
    obtain ⟨pre, post, hl, hd, hpre⟩ := (find_some_iff_first _ _ _).mp hf
    refine ⟨d, rfl, by simpa [of_dev_phandle_match] using hd, pre, post, hl, ?_⟩
    intro x hx
    simpa [of_dev_phandle_match] using hpre x hx

/-- Witness for C18: after the scenario probe every node has the phandle field 0, and the
lookup of 0 returns the first device. -/
theorem find_by_phandle_zero_returns_device_witness :
    (∃ d ∈ (of_platform_bus_probe socPlatform allOk (some socTree)
        (MatchesArg.table socTable) none emptyKernel).2.klist_devices,
        d.of_node.phandle = 0) ∧
    (∃ d, (of_find_device_by_phandle 0 (of_platform_bus_probe socPlatform allOk (some socTree)
        (MatchesArg.table socTable) none emptyKernel).2).1 = some d ∧ d.of_node.phandle = 0 ∧
      ∃ pre post, (of_platform_bus_probe socPlatform allOk (some socTree)
        (MatchesArg.table socTable) none emptyKernel).2.klist_devices = pre ++ d :: post ∧
        ∀ x ∈ pre, x.of_node.phandle ≠ 0) ∧
    ((of_find_device_by_phandle 0 (of_platform_bus_probe socPlatform allOk (some socTree)
        (MatchesArg.table socTable) none emptyKernel).2).1.map
          (fun d => (d.addr, d.of_node.full_name))) = some (0, "/soc") :=
  have h : ∃ d ∈ (of_platform_bus_probe socPlatform allOk (some socTree)
      (MatchesArg.table socTable) none emptyKernel).2.klist_devices,
      d.of_node.phandle = 0 :=
    ⟨newDevice 0 socTree none none, List.mem_cons_self _ _, rfl⟩
  ⟨h, find_by_phandle_zero_returns_device _ h, by decide⟩

/-! ## The loop stops at the first failing child -/

theorem bus_create_loop_stops (fate : Nat → Outcome) (tbl : MatchTable) (parent : Option Nat)
    (cs post : List DeviceNode) :
    ∀ (prev : Option DeviceNode) (s : Kernel),
      (bus_create_loop fate cs tbl parent 0 prev s).1 ≠ 0 →
      bus_create_loop fate (cs ++ post) tbl parent 0 prev s =
        bus_create_loop fate cs tbl parent 0 prev s := by
  induction cs with
  | nil =>
    intro prev s h
    simp [bus_create_loop] at h
  | cons c rest ih =>
    intro prev s h
    rw [List.cons_append, bus_create_loop, bus_create_loop]
    rw [bus_create_loop] at h
    generalize of_platform_device_create fate c none parent
      (of_get_next_child prev (some c) s) = r at h ⊢
    obtain ⟨dev, s2⟩ := r
    cases dev with
    | none => rfl
    | some dev =>
      simp only at h ⊢
      by_cases hm : of_match_node tbl c = false
      · simp only [if_pos hm] at h ⊢
        exact ih (some c) s2 h
      · simp only [if_neg hm, if_true] at h ⊢
        generalize of_platform_bus_create fate c tbl (some dev.addr) s2 = r3 at h ⊢
        obtain ⟨rc1, s3⟩ := r3
        simp only at h ⊢
        by_cases h1 : rc1 ≠ 0
        · simp only [if_pos h1]
        · simp only [if_neg h1] at h ⊢
          have e : rc1 = 0 := by simpa using h1
          subst e
          exact ih (some c) s3 h

/-- C12: in the loop of `of_platform_bus_create`, at a child `c` followed by the siblings
`post`: if the creation of the device of `c` fails, the loop returns `-ENOMEM` at once; if
the device is created, `c` matches and the recursive call into `c` returns a failure, the
loop returns that same status at once.  In both cases the result does not depend on `post`
and the state returned is the state right after `c` (with the reference on `c` released):
nothing is attempted for a later sibling.  Hence a call over the children `pre ++ c :: post`
in which the walk of `pre ++ [c]` fails returns exactly what the call over `pre ++ [c]`
returns. -/
theorem bus_create_stops_at_failing_child (fate : Nat → Outcome) (tbl : MatchTable)
    (parent : Option Nat) (prev : Option DeviceNode) (s : Kernel) (c : DeviceNode)
    (pre post : List DeviceNode) (a : Nat) (n : String) (p : Nat) :
    ((of_platform_device_create fate c none parent (of_get_next_child prev (some c) s)).1 =
        none →
      bus_create_loop fate (c :: post) tbl parent 0 prev s =
        (-ENOMEM, of_node_put c
          (of_platform_device_create fate c none parent
            (of_get_next_child prev (some c) s)).2)) ∧
    (∀ dev : OfDevice,
      (of_platform_device_create fate c none parent (of_get_next_child prev (some c) s)).1 =
        some dev →
      tbl c = true →
      (of_platform_bus_create fate c tbl (some dev.addr)
        (of_platform_device_create fate c none parent
          (of_get_next_child prev (some c) s)).2).1 ≠ 0 →
      bus_create_loop fate (c :: post) tbl parent 0 prev s =
        ((of_platform_bus_create fate c tbl (some dev.addr)
            (of_platform_device_create fate c none parent
              (of_get_next_child prev (some c) s)).2).1,
          of_node_put c
            (of_platform_bus_create fate c tbl (some dev.addr)
              (of_platform_device_create fate c none parent
                (of_get_next_child prev (some c) s)).2).2)) ∧
    ((of_platform_bus_create fate (DeviceNode.mk a n p (pre ++ [c])) tbl parent s).1 ≠ 0 →
      of_platform_bus_create fate (DeviceNode.mk a n p (pre ++ c :: post)) tbl parent s =
        of_platform_bus_create fate (DeviceNode.mk a n p (pre ++ [c])) tbl parent s) := by
  refine ⟨?_, ?_, ?_⟩
  · intro h
    rw [bus_create_loop]
    generalize of_platform_device_create fate c none parent
      (of_get_next_child prev (some c) s) = r at h ⊢
    obtain ⟨dev, s2⟩ := r
    simp only at h
    subst h
    rfl
  · intro dev h hm hrec
    rw [bus_create_loop]
    generalize of_platform_device_create fate c none parent
      (of_get_next_child prev (some c) s) = r at h hrec ⊢
    obtain ⟨dev1, s2⟩ := r
    simp only at h
    subst h
    have hm2 : ¬ of_match_node tbl c = false := by simp [of_match_node, hm]
    simp only [if_neg hm2, if_true]
    simp only at hrec
    rw [if_pos hrec]
  · intro h
    rw [bus_create_eq] at h ⊢
    rw [bus_create_eq]
    simp only [DeviceNode.children] at h ⊢
    have e : pre ++ c :: post = (pre ++ [c]) ++ post := by simp
    rw [e]
    exact bus_create_loop_stops fate tbl parent _ post none s h

/-- Witness for C12: the loop at `/soc/bridge` followed by `/soc/uart0`, with the creation
for `/soc/bridge` failing, and with the creation for `/soc/bridge/dev0` beneath it
failing. -/
theorem bus_create_stops_at_failing_child_witness :
    ((of_platform_device_create (failsAt 0) socBridge none none
        (of_get_next_child none (some socBridge) emptyKernel)).1 = none ∧
      bus_create_loop (failsAt 0) (socBridge :: [socUart0]) socTable none 0 none emptyKernel =
        (-ENOMEM, of_node_put socBridge
          (of_platform_device_create (failsAt 0) socBridge none none
            (of_get_next_child none (some socBridge) emptyKernel)).2)) ∧
    ((of_platform_device_create (failsAt 1) socBridge none none
        (of_get_next_child none (some socBridge) emptyKernel)).1 =
        some (newDevice 0 socBridge none none) ∧
      socTable socBridge = true ∧
      (of_platform_bus_create (failsAt 1) socBridge socTable
        (some (newDevice 0 socBridge none none).addr)
        (of_platform_device_create (failsAt 1) socBridge none none
          (of_get_next_child none (some socBridge) emptyKernel)).2).1 ≠ 0 ∧
      bus_create_loop (failsAt 1) (socBridge :: [socUart0]) socTable none 0 none emptyKernel =
        ((of_platform_bus_create (failsAt 1) socBridge socTable
            (some (newDevice 0 socBridge none none).addr)
            (of_platform_device_create (failsAt 1) socBridge none none
              (of_get_next_child none (some socBridge) emptyKernel)).2).1,
          of_node_put socBridge
            (of_platform_bus_create (failsAt 1) socBridge socTable
              (some (newDevice 0 socBridge none none).addr)
              (of_platform_device_create (failsAt 1) socBridge none none
                (of_get_next_child none (some socBridge) emptyKernel)).2).2)) ∧
    ((of_platform_bus_create (failsAt 1) (DeviceNode.mk 1 "/soc" 0 ([] ++ [socBridge]))
        socTable none emptyKernel).1 ≠ 0 ∧
      of_platform_bus_create (failsAt 1)
          (DeviceNode.mk 1 "/soc" 0 ([] ++ socBridge :: [socUart0])) socTable none emptyKernel =
        of_platform_bus_create (failsAt 1) (DeviceNode.mk 1 "/soc" 0 ([] ++ [socBridge]))
          socTable none emptyKernel) ∧
    ((of_platform_bus_create (failsAt 1)
        (DeviceNode.mk 1 "/soc" 0 ([] ++ socBridge :: [socUart0])) socTable none
        emptyKernel).1 = -ENOMEM ∧
      (of_platform_bus_create (failsAt 1)
        (DeviceNode.mk 1 "/soc" 0 ([] ++ socBridge :: [socUart0])) socTable none
        emptyKernel).2.attempts = 2 ∧
      (of_platform_bus_create (failsAt 1)
        (DeviceNode.mk 1 "/soc" 0 ([] ++ socBridge :: [socUart0])) socTable none
        emptyKernel).2.klist_devices.map (fun d => d.of_node.full_name) = ["/soc/bridge"]) :=
  ⟨⟨rfl, (bus_create_stops_at_failing_child (failsAt 0) socTable none none emptyKernel
      socBridge [] [socUart0] 1 "/soc" 0).1 rfl⟩,
    ⟨rfl, by decide, by decide,
      (bus_create_stops_at_failing_child (failsAt 1) socTable none none emptyKernel
        socBridge [] [socUart0] 1 "/soc" 0).2.1 (newDevice 0 socBridge none none) rfl
        (by decide) (by decide)⟩,
    ⟨by decide,
      (bus_create_stops_at_failing_child (failsAt 1) socTable none none emptyKernel
        socBridge [] [socUart0] 1 "/soc" 0).2.2 (by decide)⟩,
    ⟨by decide, by decide, by decide⟩⟩

/-! ## A failure ends the whole walk -/

theorem consecutive_takeWhile_ok (fate : Nat → Outcome) (P : List OfDevice) :
    ∀ b, Consecutive b P → ∀ i, b ≤ i → i < b + (P.takeWhile (fateOk fate)).length →
      fate i = Outcome.ok := by
  induction P with
  | nil => intro b _ i h1 h2; simp at h2; omega
  | cons d P ih =>
    intro b hP i h1 h2
    obtain ⟨hd, hP⟩ := hP
    by_cases hok : fateOk fate d = true
    · rw [List.takeWhile_cons_of_pos hok, List.length_cons] at h2
      by_cases hi : i = b
      · rw [hi]; simpa [fateOk, hd] using hok
      · exact ih (b + 1) hP i (by omega) (by omega)
    · rw [List.takeWhile_cons_of_neg hok, List.length_nil] at h2
      omega

theorem runs_failure_is_last (fate : Nat → Outcome) (P : List OfDevice) (s : Kernel)
    (rc : Int) (devs : List OfDevice) (n : Nat) (h : Runs fate P s rc devs n)
    (hP : Consecutive s.attempts P) :
    (∀ i, s.attempts ≤ i → i + 1 < n → fate i = Outcome.ok) ∧
      (rc = -ENOMEM → s.attempts < n ∧ fate (n - 1) ≠ Outcome.ok) := by
  have hpre : ∀ i, s.attempts ≤ i → i + 1 < n → fate i = Outcome.ok := by
    intro i h1 h2
    refine consecutive_takeWhile_ok fate P s.attempts hP i h1 ?_
    have := h.2.2
    omega
  refine ⟨hpre, ?_⟩
  intro hrc
  obtain ⟨i, h1, h2, h3⟩ := ((runs_status fate P s rc devs n h hP).2.1).mp hrc
  have hi : i = n - 1 := by
    by_contra hne
    exact h3 (hpre i h1 (by omega))
  exact ⟨by omega, hi ▸ h3⟩

/-- C13 (amended): in `of_platform_bus_create` and in `of_platform_bus_probe` a failed
creation ends the whole walk, at every level, and is reported: the call returns `-ENOMEM`
exactly when one of the creation attempts it made failed; every attempt of the call except
the last one made succeeded, so the failed attempt is the last one; and the devices
registered are the devices of the pre-order plan of the call up to that attempt.  After a
failure nothing more is attempted, neither for the later siblings of the failing child nor
for the later siblings of its ancestors. -/
theorem failure_ends_whole_walk (pf : Platform) (fate : Nat → Outcome)
    (root : Option DeviceNode) (arg : MatchesArg) (bus : DeviceNode) (tbl : MatchTable)
    (parent : Option Nat) (s : Kernel) :
    ((of_platform_bus_create fate bus tbl parent s).1 = -ENOMEM ↔
      ∃ i, s.attempts ≤ i ∧ i < (of_platform_bus_create fate bus tbl parent s).2.attempts ∧
        fate i ≠ Outcome.ok) ∧
    ((of_platform_bus_create fate bus tbl parent s).1 = 0 ∨
      (of_platform_bus_create fate bus tbl parent s).1 = -ENOMEM) ∧
    (∀ i, s.attempts ≤ i →
      i + 1 < (of_platform_bus_create fate bus tbl parent s).2.attempts →
        fate i = Outcome.ok) ∧
    ((of_platform_bus_create fate bus tbl parent s).1 = -ENOMEM →
      s.attempts < (of_platform_bus_create fate bus tbl parent s).2.attempts ∧
      fate ((of_platform_bus_create fate bus tbl parent s).2.attempts - 1) ≠ Outcome.ok) ∧
    (of_platform_bus_create fate bus tbl parent s).2.klist_devices =
      s.klist_devices ++
        (planChildren tbl parent s.attempts bus.children).takeWhile (fateOk fate) ∧
    ((of_platform_bus_probe pf fate root arg parent s).1 = -ENOMEM ↔
      ∃ i, s.attempts ≤ i ∧ i < (of_platform_bus_probe pf fate root arg parent s).2.attempts ∧
        fate i ≠ Outcome.ok) ∧
    ((of_platform_bus_probe pf fate root arg parent s).1 = 0 ∨
      (of_platform_bus_probe pf fate root arg parent s).1 = -ENOMEM ∨
      ((of_platform_bus_probe pf fate root arg parent s).1 = -EINVAL ∧
        arg = MatchesArg.OF_NO_DEEP_PROBE)) ∧
    (∀ i, s.attempts ≤ i →
      i + 1 < (of_platform_bus_probe pf fate root arg parent s).2.attempts →
        fate i = Outcome.ok) ∧
    ((of_platform_bus_probe pf fate root arg parent s).1 = -ENOMEM →
      s.attempts < (of_platform_bus_probe pf fate root arg parent s).2.attempts ∧
      fate ((of_platform_bus_probe pf fate root arg parent s).2.attempts - 1) ≠
        Outcome.ok) ∧
    (∀ t, resolveTable pf arg = some t →
      (of_platform_bus_probe pf fate root arg parent s).2.klist_devices =
        s.klist_devices ++
          (planProbe t parent s.attempts (resolveRoot pf root)).takeWhile (fateOk fate)) := by
  have hbr := bus_create_runs fate tbl bus parent s
  have hbc := planChildren_consecutive tbl bus.children parent s.attempts
  have hb := runs_failure_is_last fate _ s _ _ _ hbr hbc
  have hbs := runs_status fate _ s _ _ _ hbr hbc
  refine ⟨hbs.2.1, hbs.1, hb.1, hb.2, hbr.2.1, ?_⟩
  cases htbl : resolveTable pf arg with
  | none =>
    have harg : arg = MatchesArg.OF_NO_DEEP_PROBE := by
      cases arg with
      | null => simp [resolveTable] at htbl
      | OF_NO_DEEP_PROBE => rfl
      | table t => simp [resolveTable] at htbl
    rw [probe_refused pf fate root arg parent s htbl]
    refine ⟨⟨fun h => ?_, fun h => ?_⟩, Or.inr (Or.inr ⟨rfl, harg⟩), fun i h1 h2 => ?_,
      fun h => ?_, fun t ht => ?_⟩
    · simp only [EINVAL, ENOMEM] at h; omega
    · obtain ⟨i, h1, h2, _⟩ := h
      simp only at h2; omega
    · simp only at h2; omega
    · simp only [EINVAL, ENOMEM] at h; omega
    · cases ht
  | some t =>
    have hpr := probe_runs pf fate root arg parent s t htbl
    have hpc := planProbe_consecutive t (resolveRoot pf root) parent s.attempts
    have hp := runs_failure_is_last fate _ s _ _ _ hpr hpc
    have hps := runs_status fate _ s _ _ _ hpr hpc
    refine ⟨hps.2.1, ?_, hp.1, hp.2, fun t1 ht1 => ?_⟩
    · rcases hps.1 with h | h
      · exact Or.inl h
      · exact Or.inr (Or.inl h)
    · injection ht1 with e
      rw [← e]
      exact hpr.2.1

/-- Witness for C13 (amended): the two-level tree with the third creation attempt failing,
which is the one for `/bus/sub/y` in a direct walk and the one for `/bus/sub/x` in a
probe. -/
theorem failure_ends_whole_walk_witness :
    (((of_platform_bus_create (failsAt 2) nestTree nestTable none emptyKernel).1 = -ENOMEM ↔
      ∃ i, emptyKernel.attempts ≤ i ∧ i < (of_platform_bus_create (failsAt 2) nestTree nestTable
          none emptyKernel).2.attempts ∧
        (failsAt 2) i ≠ Outcome.ok) ∧
    ((of_platform_bus_create (failsAt 2) nestTree nestTable none emptyKernel).1 = 0 ∨
      (of_platform_bus_create (failsAt 2) nestTree nestTable none emptyKernel).1 = -ENOMEM) ∧
    (∀ i, emptyKernel.attempts ≤ i →
      i + 1 < (of_platform_bus_create (failsAt 2) nestTree nestTable none emptyKernel).2.attempts →
        (failsAt 2) i = Outcome.ok) ∧
    ((of_platform_bus_create (failsAt 2) nestTree nestTable none emptyKernel).1 = -ENOMEM →
      emptyKernel.attempts < (of_platform_bus_create (failsAt 2) nestTree nestTable none
          emptyKernel).2.attempts ∧
      (failsAt 2) ((of_platform_bus_create (failsAt 2) nestTree nestTable none
          emptyKernel).2.attempts - 1) ≠ Outcome.ok) ∧
    (of_platform_bus_create (failsAt 2) nestTree nestTable none emptyKernel).2.klist_devices =
      emptyKernel.klist_devices ++
        (planChildren nestTable none emptyKernel.attempts nestTree.children).takeWhile (fateOk
            (failsAt 2)) ∧
    ((of_platform_bus_probe socPlatform (failsAt 2) (some nestTree) (MatchesArg.table nestTable)
        none emptyKernel).1 = -ENOMEM ↔
      ∃ i, emptyKernel.attempts ≤ i ∧ i < (of_platform_bus_probe socPlatform (failsAt 2) (some
          nestTree) (MatchesArg.table nestTable) none emptyKernel).2.attempts ∧
        (failsAt 2) i ≠ Outcome.ok) ∧
    ((of_platform_bus_probe socPlatform (failsAt 2) (some nestTree) (MatchesArg.table nestTable)
        none emptyKernel).1 = 0 ∨
      (of_platform_bus_probe socPlatform (failsAt 2) (some nestTree) (MatchesArg.table nestTable)
          none emptyKernel).1 = -ENOMEM ∨
      ((of_platform_bus_probe socPlatform (failsAt 2) (some nestTree) (MatchesArg.table nestTable)
          none emptyKernel).1 = -EINVAL ∧
        (MatchesArg.table nestTable) = MatchesArg.OF_NO_DEEP_PROBE)) ∧
    (∀ i, emptyKernel.attempts ≤ i →
      i + 1 < (of_platform_bus_probe socPlatform (failsAt 2) (some nestTree) (MatchesArg.table
          nestTable) none emptyKernel).2.attempts →
        (failsAt 2) i = Outcome.ok) ∧
    ((of_platform_bus_probe socPlatform (failsAt 2) (some nestTree) (MatchesArg.table nestTable)
        none emptyKernel).1 = -ENOMEM →
      emptyKernel.attempts < (of_platform_bus_probe socPlatform (failsAt 2) (some nestTree)
          (MatchesArg.table nestTable) none emptyKernel).2.attempts ∧
      (failsAt 2) ((of_platform_bus_probe socPlatform (failsAt 2) (some nestTree) (MatchesArg.table
          nestTable) none emptyKernel).2.attempts - 1) ≠
        Outcome.ok) ∧
    (∀ t, resolveTable socPlatform (MatchesArg.table nestTable) = some t →
      (of_platform_bus_probe socPlatform (failsAt 2) (some nestTree) (MatchesArg.table nestTable)
          none emptyKernel).2.klist_devices =
        emptyKernel.klist_devices ++
          (planProbe t none emptyKernel.attempts (resolveRoot socPlatform (some
              nestTree))).takeWhile (fateOk (failsAt 2)))) ∧
    ((∃ i, emptyKernel.attempts ≤ i ∧
        i < (of_platform_bus_create (failsAt 2) nestTree nestTable none emptyKernel).2.attempts ∧
            failsAt 2 i ≠ Outcome.ok) ∧
      (of_platform_bus_create (failsAt 2) nestTree nestTable none emptyKernel).1 = -ENOMEM) ∧
    ((emptyKernel.attempts ≤ 0 ∧ 0 + 1 < (of_platform_bus_create (failsAt 2) nestTree nestTable
        none emptyKernel).2.attempts) ∧ failsAt 2 0 = Outcome.ok) ∧
    (emptyKernel.attempts < (of_platform_bus_create (failsAt 2) nestTree nestTable none
        emptyKernel).2.attempts ∧
      failsAt 2 ((of_platform_bus_create (failsAt 2) nestTree nestTable none
          emptyKernel).2.attempts - 1) ≠ Outcome.ok) ∧
    (resolveTable socPlatform (MatchesArg.table nestTable) = some nestTable ∧
      (of_platform_bus_probe socPlatform (failsAt 2) (some nestTree) (MatchesArg.table nestTable)
          none emptyKernel).2.klist_devices =
        emptyKernel.klist_devices ++
          (planProbe nestTable none emptyKernel.attempts
            (resolveRoot socPlatform (some nestTree))).takeWhile (fateOk (failsAt 2))) ∧
    ((of_platform_bus_create (failsAt 2) nestTree nestTable none emptyKernel).2.attempts = 3 ∧
      (of_platform_bus_create (failsAt 2) nestTree nestTable none emptyKernel).2.klist_devices.map
          (fun d => d.of_node.full_name) = ["/bus/sub", "/bus/sub/x"] ∧
      (of_platform_bus_probe socPlatform (failsAt 2) (some nestTree) (MatchesArg.table nestTable)
          none emptyKernel).1 = -ENOMEM ∧ (of_platform_bus_probe socPlatform (failsAt 2) (some
              nestTree) (MatchesArg.table nestTable) none emptyKernel).2.attempts = 3 ∧
      (of_platform_bus_probe socPlatform (failsAt 2) (some nestTree) (MatchesArg.table nestTable)
          none emptyKernel).2.klist_devices.map (fun d => d.of_node.full_name) = ["/bus",
              "/bus/sub"]) :=
  have hex : ∃ i, emptyKernel.attempts ≤ i ∧
      i < (of_platform_bus_create (failsAt 2) nestTree nestTable none emptyKernel).2.attempts ∧
          failsAt 2 i ≠ Outcome.ok :=
    ⟨2, by decide, by decide, by decide⟩
  have hrc : (of_platform_bus_create (failsAt 2) nestTree nestTable none emptyKernel).1 = -ENOMEM :=
    (failure_ends_whole_walk socPlatform (failsAt 2) (some nestTree) (MatchesArg.table nestTable)
        nestTree nestTable none emptyKernel).1.mpr hex
  ⟨failure_ends_whole_walk socPlatform (failsAt 2) (some nestTree)
      (MatchesArg.table nestTable) nestTree nestTable none emptyKernel,
    ⟨hex, hrc⟩,
    ⟨⟨Nat.le_refl 0, by decide⟩,
      (failure_ends_whole_walk socPlatform (failsAt 2) (some nestTree) (MatchesArg.table
          nestTable) nestTree nestTable none emptyKernel).2.2.1 0 (Nat.le_refl 0) (by decide)⟩,
    (failure_ends_whole_walk socPlatform (failsAt 2) (some nestTree) (MatchesArg.table nestTable)
        nestTree nestTable none emptyKernel).2.2.2.1 hrc,
    ⟨rfl, (failure_ends_whole_walk socPlatform (failsAt 2) (some nestTree) (MatchesArg.table
        nestTable) nestTree nestTable none emptyKernel).2.2.2.2.2.2.2.2.2 nestTable rfl⟩,
    ⟨by decide, by decide, by decide, by decide, by decide⟩⟩

/-- C13 (as stated) fails: a probe of `/bus` in which the creation for `/bus/sub/x` fails
returns `-ENOMEM` after three attempts with only the devices of `/bus` and `/bus/sub`
registered.  The later sibling `/bus/sub/y` is skipped, and so is `/bus/late`, the later
sibling of the ancestor `/bus/sub`, although a creation for it would have succeeded. -/
theorem failure_skips_siblings_of_ancestors :
    (of_platform_bus_probe socPlatform (failsAt 2) (some nestTree)
      (MatchesArg.table nestTable) none emptyKernel).1 = -ENOMEM ∧
    (of_platform_bus_probe socPlatform (failsAt 2) (some nestTree)
      (MatchesArg.table nestTable) none emptyKernel).2.attempts = 3 ∧
    (of_platform_bus_probe socPlatform (failsAt 2) (some nestTree)
      (MatchesArg.table nestTable) none emptyKernel).2.klist_devices.map
        (fun d => d.of_node.full_name) = ["/bus", "/bus/sub"] ∧
    (of_platform_bus_probe socPlatform allOk (some nestTree)
      (MatchesArg.table nestTable) none emptyKernel).2.klist_devices.map
        (fun d => d.of_node.full_name) =
          ["/bus", "/bus/sub", "/bus/sub/x", "/bus/sub/y", "/bus/late"] ∧
    (∀ i, i ≠ 2 → failsAt 2 i = Outcome.ok) ∧
    (of_platform_bus_create (failsAt 1) nestTree nestTable none emptyKernel).1 = -ENOMEM ∧
    (of_platform_bus_create (failsAt 1) nestTree nestTable none
      emptyKernel).2.klist_devices.map (fun d => d.of_node.full_name) = ["/bus/sub"] := by
  refine ⟨by decide, by decide, by decide, by decide, ?_, by decide, by decide⟩
  intro i hi
  simp [failsAt, hi]

/-! ## The device hierarchy of a plan -/

theorem hierChildren_mono {cs cs1 : List DeviceNode} {parent : Option Nat}
    {P P1 : List OfDevice} {d : OfDevice} (h : HierChildren cs parent P d)
    (hcs : cs ⊆ cs1) (hP : P ⊆ P1) : HierChildren cs1 parent P1 d := by
  rcases h with ⟨h1, h2⟩ | ⟨c, hc, ha, p, hp, h3⟩
  · exact Or.inl ⟨hcs h1, h2⟩
  · exact Or.inr ⟨c, hcs hc, ha, p, hP hp, h3⟩

theorem consecutive_lower (P : List OfDevice) :
    ∀ b, Consecutive b P → ∀ d ∈ P, b ≤ d.addr := by
  induction P with
  | nil => intro b _ d hd; cases hd
  | cons x P ih =>
    intro b h d hd
    rcases List.mem_cons.mp hd with e | hd
    · rw [e, h.1]
    · exact Nat.le_of_succ_le (ih (b + 1) h.2 d hd)

theorem consecutive_split (T R : List OfDevice) :
    ∀ b, Consecutive b (T ++ R) →
      (∀ x ∈ T, x.addr < b + T.length) ∧ (∀ x ∈ R, b + T.length ≤ x.addr) := by
  induction T with
  | nil =>
    intro b h
    exact ⟨fun x hx => (by cases hx), fun x hx => (by simpa using consecutive_lower R b h x hx)⟩
  | cons t T ih =>
    intro b h
    obtain ⟨h1, h2⟩ := ih (b + 1) h.2
    refine ⟨fun x hx => ?_, fun x hx => ?_⟩
    · rcases List.mem_cons.mp hx with e | hx
      · rw [e, h.1, List.length_cons]; omega
      · have := h1 x hx
        rw [List.length_cons]; omega
    · have := h2 x hx
      rw [List.length_cons]; omega

theorem mem_takeWhile_of_earlier (f : OfDevice → Bool) (P : List OfDevice) (b : Nat)
    (hP : Consecutive b P) (d p : OfDevice) (hd : d ∈ P.takeWhile f) (hp : p ∈ P)
    (hlt : p.addr < d.addr) : p ∈ P.takeWhile f := by
  have e := List.takeWhile_append_dropWhile f P
  rw [← e] at hP hp
  obtain ⟨h1, h2⟩ := consecutive_split _ _ b hP
  rcases List.mem_append.mp hp with h | h
  · exact h
  · have := h1 d hd
    have := h2 p h
    omega

theorem addrs_sublist_addrsList {c : DeviceNode} {cs : List DeviceNode} (h : c ∈ cs) :
    List.Sublist c.addrs (addrsList cs) := by
  induction cs with
  | nil => cases h
  | cons x xs ih =>
    rw [addrsList]
    rcases List.mem_cons.mp h with e | h
    · rw [e]; exact List.sublist_append_left _ _
    · exact (ih h).trans (List.sublist_append_right _ _)

theorem mem_addrsList_of_mem {c : DeviceNode} {cs : List DeviceNode} (h : c ∈ cs) :
    c.addr ∈ addrsList cs :=
  addrs_subset_addrsList h (addr_mem_addrs c)

theorem planNode_hier_of_children (tbl : MatchTable) (c : DeviceNode)
    (ih : ∀ (parent : Option Nat) (b : Nat), ∀ d ∈ planChildren tbl parent b c.children,
      HierChildren c.children parent (planChildren tbl parent b c.children) d)
    (parent : Option Nat) (b : Nat) :
    ∀ d ∈ planNode tbl parent b c, HierChildren [c] parent (planNode tbl parent b c) d := by
  intro d hd
  rw [planNode_eq] at hd ⊢
  rcases List.mem_cons.mp hd with e | hd
  · left
    rw [e]
    exact ⟨List.mem_singleton.mpr rfl, rfl⟩
  · right
    by_cases hm : tbl c = true
    · rw [if_pos hm] at hd ⊢
      refine ⟨c, List.mem_singleton.mpr rfl, ?_⟩
      rcases ih (some b) (b + 1) d hd with ⟨h1, h2⟩ | ⟨c1, hc1, ha, p, hp, h3⟩
      · refine ⟨mem_addrsList_of_mem h1, newDevice b c none parent, List.mem_cons_self _ _,
          h2, h1, ?_⟩
        have := consecutive_lower _ (b + 1) (planChildren_consecutive tbl _ (some b) (b + 1))
          d hd
        simp only [newDevice_addr]
        omega
      · refine ⟨?_, p, List.mem_cons_of_mem _ hp, h3⟩
        have hs : addrsList c1.children ⊆ c1.addrs := by
          rw [addrs_eq]; exact List.subset_cons_self _ _
        exact addrs_subset_addrsList hc1 (hs ha)
    · rw [if_neg hm] at hd
      cases hd

theorem planChildren_hier (tbl : MatchTable) (cs : List DeviceNode) :
    ∀ (parent : Option Nat) (b : Nat), ∀ d ∈ planChildren tbl parent b cs,
      HierChildren cs parent (planChildren tbl parent b cs) d := by
  induction cs using forest_induction with
  | nil => intro parent b d hd; simp [planChildren] at hd
  | cons c rest ihc ihr =>
    intro parent b d hd
    rw [planChildren] at hd ⊢
    rcases List.mem_append.mp hd with h | h
    · exact hierChildren_mono (planNode_hier_of_children tbl c ihc parent b d h)
        (by simp) (List.subset_append_left _ _)
    · exact hierChildren_mono (ihr parent _ d h)
        (List.subset_cons_self _ _) (List.subset_append_right _ _)

theorem planNode_hier (tbl : MatchTable) (c : DeviceNode) (parent : Option Nat) (b : Nat) :
    ∀ d ∈ planNode tbl parent b c, HierChildren [c] parent (planNode tbl parent b c) d :=
  planNode_hier_of_children tbl c (planChildren_hier tbl c.children) parent b

theorem planProbeChildren_hier (tbl : MatchTable) (cs : List DeviceNode) :
    ∀ (parent : Option Nat) (b : Nat), ∀ d ∈ planProbeChildren tbl parent b cs,
      HierChildren cs parent (planProbeChildren tbl parent b cs) d := by
  induction cs with
  | nil => intro parent b d hd; simp [planProbeChildren] at hd
  | cons c rest ih =>
    intro parent b d hd
    rw [planProbeChildren] at hd ⊢
    by_cases hm : tbl c = true
    · rw [if_pos hm] at hd ⊢
      rcases List.mem_append.mp hd with h | h
      · exact hierChildren_mono (planNode_hier tbl c parent b d h)
          (by simp) (List.subset_append_left _ _)
      · exact hierChildren_mono (ih parent _ d h)
          (List.subset_cons_self _ _) (List.subset_append_right _ _)
    · rw [if_neg hm] at hd ⊢
      exact hierChildren_mono (ih parent b d hd) (List.subset_cons_self _ _)
        (List.Subset.refl _)

/-- The hierarchy of a plan is kept by the devices registered up to the first failure. -/
theorem hier_takeWhile (f : OfDevice → Bool) (cs : List DeviceNode) (parent : Option Nat)
    (P : List OfDevice) (b : Nat) (hP : Consecutive b P)
    (h : ∀ d ∈ P, HierChildren cs parent P d) :
    ∀ d ∈ P.takeWhile f, HierChildren cs parent (P.takeWhile f) d := by
  intro d hd
  rcases h d ((List.takeWhile_sublist f).subset hd) with h1 | ⟨c, hc, ha, p, hp, h3, h4, h5⟩
  · exact Or.inl h1
  · exact Or.inr ⟨c, hc, ha, p, mem_takeWhile_of_earlier f P b hP d p hd hp h5, h3, h4, h5⟩

/-- With distinct nodes a device whose node is one of the roots has the given parent. -/
theorem hier_root_parent (cs : List DeviceNode) (hn : (addrsList cs).Nodup)
    (parent : Option Nat) (P : List OfDevice) (d : OfDevice)
    (h : HierChildren cs parent P d) (c : DeviceNode) (hc : c ∈ cs)
    (ha : d.of_node.addr = c.addr) : d.parent = parent := by
  rcases h with h1 | ⟨c1, hc1, ha1, _⟩
  · exact h1.2
  · exfalso
    have hs : addrsList c1.children ⊆ c1.addrs := by
      rw [addrs_eq]; exact List.subset_cons_self _ _
    have e : c = c1 := addrs_owner_unique cs hn c c1 hc hc1 c.addr (addr_mem_addrs c)
      (hs (ha ▸ ha1))
    have hnd : c1.addrs.Nodup := (addrs_sublist_addrsList hc1).nodup hn
    rw [addrs_eq] at hnd
    rw [ha, e] at ha1
    exact (List.nodup_cons.mp hnd).1 ha1

/-! ## A child node's device is parented at the parent node's device -/

theorem children_addr_mem_addrs {g c : DeviceNode} (h : g ∈ c.children) :
    g.addr ∈ addrsList c.children := mem_addrsList_of_mem h

theorem addrsList_children_subset_addrs (c : DeviceNode) : addrsList c.children ⊆ c.addrs := by
  rw [addrs_eq]; exact List.subset_cons_self _ _

theorem addr_not_mem_children_of_nodup {c : DeviceNode} (h : c.addrs.Nodup) :
    c.addr ∉ addrsList c.children := by
  rw [addrs_eq] at h
  exact (List.nodup_cons.mp h).1

theorem planNode_subtree_of_children (tbl : MatchTable) (c : DeviceNode)
    (ih : ∀ (parent : Option Nat) (b : Nat), ∀ p ∈ planChildren tbl parent b c.children,
      p.of_node.addrs ⊆ addrsList c.children)
    (parent : Option Nat) (b : Nat) :
    ∀ p ∈ planNode tbl parent b c, p.of_node.addrs ⊆ c.addrs := by
  intro p hp
  rw [planNode_eq] at hp
  rcases List.mem_cons.mp hp with e | hp
  · rw [e]; exact List.Subset.refl _
  · by_cases hm : tbl c = true
    · rw [if_pos hm] at hp
      exact fun a ha => addrsList_children_subset_addrs c (ih (some b) (b + 1) p hp ha)
    · rw [if_neg hm] at hp
      cases hp

theorem planChildren_subtree (tbl : MatchTable) (cs : List DeviceNode) :
    ∀ (parent : Option Nat) (b : Nat), ∀ p ∈ planChildren tbl parent b cs,
      p.of_node.addrs ⊆ addrsList cs := by
  induction cs using forest_induction with
  | nil => intro parent b p hp; simp [planChildren] at hp
  | cons c rest ihc ihr =>
    intro parent b p hp
    rw [planChildren] at hp
    rw [addrsList]
    rcases List.mem_append.mp hp with h | h
    · exact fun a ha => List.mem_append_left _
        (planNode_subtree_of_children tbl c ihc parent b p h ha)
    · exact fun a ha => List.mem_append_right _ (ihr parent _ p h ha)

theorem planNode_subtree (tbl : MatchTable) (c : DeviceNode) (parent : Option Nat) (b : Nat) :
    ∀ p ∈ planNode tbl parent b c, p.of_node.addrs ⊆ c.addrs :=
  planNode_subtree_of_children tbl c (planChildren_subtree tbl c.children) parent b

theorem planProbeChildren_subtree (tbl : MatchTable) (cs : List DeviceNode) :
    ∀ (parent : Option Nat) (b : Nat), ∀ p ∈ planProbeChildren tbl parent b cs,
      p.of_node.addrs ⊆ addrsList cs := by
  induction cs with
  | nil => intro parent b p hp; simp [planProbeChildren] at hp
  | cons c rest ih =>
    intro parent b p hp
    rw [planProbeChildren] at hp
    rw [addrsList]
    by_cases hm : tbl c = true
    · rw [if_pos hm] at hp
      rcases List.mem_append.mp hp with h | h
      · exact fun a ha => List.mem_append_left _ (planNode_subtree tbl c parent b p h ha)
      · exact fun a ha => List.mem_append_right _ (ih parent _ p h ha)
    · rw [if_neg hm] at hp
      exact fun a ha => List.mem_append_right _ (ih parent b p hp ha)

theorem mirrors_append (P Q : List OfDevice) (A B : List Nat) (hP : Mirrors P)
    (hQ : Mirrors Q) (hdis : ∀ a, a ∈ A → a ∈ B → False)
    (hPn : ∀ d ∈ P, d.of_node.addr ∈ A) (hPs : ∀ p ∈ P, p.of_node.addrs ⊆ A)
    (hQn : ∀ d ∈ Q, d.of_node.addr ∈ B) (hQs : ∀ p ∈ Q, p.of_node.addrs ⊆ B) :
    Mirrors (P ++ Q) := by
  intro d hd p hp g hg hga
  have hgp : g.addr ∈ p.of_node.addrs :=
    addrsList_children_subset_addrs _ (children_addr_mem_addrs hg)
  rcases List.mem_append.mp hd with h1 | h1 <;> rcases List.mem_append.mp hp with h2 | h2
  · exact hP d h1 p h2 g hg hga
  · exact absurd (hQs p h2 hgp) (fun h => hdis _ (hga ▸ hPn d h1) h)
  · exact absurd (hPs p h2 hgp) (fun h => hdis _ h (hga ▸ hQn d h1))
  · exact hQ d h1 p h2 g hg hga

theorem planNode_mirrors_of_children (tbl : MatchTable) (c : DeviceNode)
    (hn : c.addrs.Nodup)
    (ih : ∀ (parent : Option Nat) (b : Nat), Mirrors (planChildren tbl parent b c.children))
    (parent : Option Nat) (b : Nat) : Mirrors (planNode tbl parent b c) := by
  have hnc : (addrsList c.children).Nodup := by
    rw [addrs_eq] at hn; exact (List.nodup_cons.mp hn).2
  intro d hd p hp g hg hga
  rw [planNode_eq] at hd hp
  by_cases hm : tbl c = true
  · rw [if_pos hm] at hd hp
    rcases List.mem_cons.mp hp with e2 | h2
    · rw [e2] at hg ⊢
      rcases List.mem_cons.mp hd with e1 | h1
      · exfalso
        rw [e1] at hga
        exact addr_not_mem_children_of_nodup hn (hga ▸ children_addr_mem_addrs hg)
      · exact hier_root_parent _ hnc (some b) _ d
          (planChildren_hier tbl _ (some b) (b + 1) d h1) g hg hga.symm
    · have hgs : g.addr ∈ addrsList c.children :=
        planChildren_subtree tbl _ (some b) (b + 1) p h2
          (addrsList_children_subset_addrs _ (children_addr_mem_addrs hg))
      rcases List.mem_cons.mp hd with e1 | h1
      · exfalso
        rw [e1] at hga
        exact addr_not_mem_children_of_nodup hn (hga ▸ hgs)
      · exact ih (some b) (b + 1) d h1 p h2 g hg hga
  · rw [if_neg hm] at hd hp
    have e1 := List.mem_singleton.mp hd
    have e2 := List.mem_singleton.mp hp
    exfalso
    rw [e2] at hg
    rw [e1] at hga
    exact addr_not_mem_children_of_nodup hn (hga ▸ children_addr_mem_addrs hg)

theorem planChildren_mirrors (tbl : MatchTable) (cs : List DeviceNode) :
    (addrsList cs).Nodup → ∀ (parent : Option Nat) (b : Nat),
      Mirrors (planChildren tbl parent b cs) := by
  induction cs using forest_induction with
  | nil => intro _ parent b d hd; simp [planChildren] at hd
  | cons c rest ihc ihr =>
    intro hn parent b
    rw [addrsList] at hn
    have hnc : c.addrs.Nodup := List.Nodup.of_append_left hn
    have hncc : (addrsList c.children).Nodup := by
      rw [addrs_eq] at hnc; exact (List.nodup_cons.mp hnc).2
    rw [planChildren]
    refine mirrors_append _ _ c.addrs (addrsList rest)
      (planNode_mirrors_of_children tbl c hnc (ihc hncc) parent b)
      (ihr (List.Nodup.of_append_right hn) parent _)
      (fun a h1 h2 => List.disjoint_of_nodup_append hn h1 h2)
      (fun d hd => (planNode_sublist tbl c parent b).subset
        (List.mem_map_of_mem (fun d => d.of_node.addr) hd))
      (planNode_subtree tbl c parent b)
      (fun d hd => (planChildren_sublist tbl rest parent _).subset
        (List.mem_map_of_mem (fun d => d.of_node.addr) hd))
      (planChildren_subtree tbl rest parent _)

theorem planNode_mirrors (tbl : MatchTable) (c : DeviceNode) (hn : c.addrs.Nodup)
    (parent : Option Nat) (b : Nat) : Mirrors (planNode tbl parent b c) := by
  have hnc : (addrsList c.children).Nodup := by
    rw [addrs_eq] at hn; exact (List.nodup_cons.mp hn).2
  exact planNode_mirrors_of_children tbl c hn (planChildren_mirrors tbl _ hnc) parent b

theorem planProbeChildren_mirrors (tbl : MatchTable) (cs : List DeviceNode) :
    (addrsList cs).Nodup → ∀ (parent : Option Nat) (b : Nat),
      Mirrors (planProbeChildren tbl parent b cs) := by
  induction cs with
  | nil => intro _ parent b d hd; simp [planProbeChildren] at hd
  | cons c rest ih =>
    intro hn parent b
    rw [addrsList] at hn
    rw [planProbeChildren]
    by_cases hm : tbl c = true
    · rw [if_pos hm]
      refine mirrors_append _ _ c.addrs (addrsList rest)
        (planNode_mirrors tbl c (List.Nodup.of_append_left hn) parent b)
        (ih (List.Nodup.of_append_right hn) parent _)
        (fun a h1 h2 => List.disjoint_of_nodup_append hn h1 h2)
        (fun d hd => (planNode_sublist tbl c parent b).subset
          (List.mem_map_of_mem (fun d => d.of_node.addr) hd))
        (planNode_subtree tbl c parent b)
        (fun d hd => (planProbeChildren_sublist tbl rest parent _).subset
          (List.mem_map_of_mem (fun d => d.of_node.addr) hd))
        (planProbeChildren_subtree tbl rest parent _)
    · rw [if_neg hm]
      exact ih (List.Nodup.of_append_right hn) parent b

theorem mirrors_subset {P Q : List OfDevice} (h : Mirrors P) (hs : Q ⊆ P) : Mirrors Q :=
  fun d hd p hp g hg hga => h d (hs hd) p (hs hp) g hg hga

theorem head_mem_takeWhile (f : OfDevice → Bool) (x : OfDevice) (P : List OfDevice)
    (d : OfDevice) (hd : d ∈ (x :: P).takeWhile f) : x ∈ (x :: P).takeWhile f := by
  by_cases hx : f x = true
  · rw [List.takeWhile_cons_of_pos hx]; exact List.mem_cons_self _ _
  · rw [List.takeWhile_cons_of_neg hx] at hd; cases hd

/-! ## The device hierarchy mirrors the tree -/

theorem newDevices_of_runs {fate : Nat → Outcome} {P : List OfDevice} {s s1 : Kernel}
    {rc : Int} {n : Nat} (h : Runs fate P s rc s1.klist_devices n) :
    newDevices s s1 = P.takeWhile (fateOk fate) :=
  newDevices_of_append s s1 _ h.2.1

/-- C14: the devices created by one call mirror the node tree (nodes being distinct).
In `of_platform_bus_create`: the device of a direct child of the bus has the `parent`
argument as parent; every other created device has as parent an earlier device of the same
call whose node is the parent node of its own node; and whenever the node of a created
device is a child of the node of another created device, that device is its parent.
In `of_platform_bus_probe`: with a matching root the device of the root has the `parent`
argument as parent and the devices of the children of the root have the device of the root
as parent; with a root that does not match the device of a (matching) child of the root has
the `parent` argument as parent; in both cases every other created device has as parent an
earlier device of the same call whose node is the parent node of its own node, and
whenever the node of a created device is a child of the node of another created device,
that device is its parent. -/
theorem device_hierarchy_mirrors_tree (pf : Platform) (fate : Nat → Outcome)
    (root : Option DeviceNode) (arg : MatchesArg) (bus : DeviceNode) (tbl : MatchTable)
    (parent : Option Nat) (s : Kernel) (htbl : resolveTable pf arg = some tbl)
    (hbus : (addrsList bus.children).Nodup) (hroot : (resolveRoot pf root).addrs.Nodup) :
    (∀ d ∈ newDevices s (of_platform_bus_create fate bus tbl parent s).2,
      (d.of_node ∈ bus.children ∧ d.parent = parent) ∨
      (∃ p ∈ newDevices s (of_platform_bus_create fate bus tbl parent s).2,
        d.parent = some p.addr ∧ d.of_node ∈ p.of_node.children ∧ p.addr < d.addr)) ∧
    (∀ d ∈ newDevices s (of_platform_bus_create fate bus tbl parent s).2,
      ∀ c ∈ bus.children, d.of_node.addr = c.addr → d.parent = parent) ∧
    (∀ d ∈ newDevices s (of_platform_bus_create fate bus tbl parent s).2,
      (∀ c ∈ bus.children, d.of_node.addr ≠ c.addr) →
      ∃ p ∈ newDevices s (of_platform_bus_create fate bus tbl parent s).2,
        d.parent = some p.addr ∧ d.of_node ∈ p.of_node.children) ∧
    (∀ d ∈ newDevices s (of_platform_bus_create fate bus tbl parent s).2,
      ∀ p ∈ newDevices s (of_platform_bus_create fate bus tbl parent s).2,
      ∀ g ∈ p.of_node.children, g.addr = d.of_node.addr → d.parent = some p.addr) ∧
    (tbl (resolveRoot pf root) = true →
      ∀ d ∈ newDevices s (of_platform_bus_probe pf fate root arg parent s).2,
        (d.of_node = resolveRoot pf root ∧ d.parent = parent) ∨
        (∃ p ∈ newDevices s (of_platform_bus_probe pf fate root arg parent s).2,
          d.parent = some p.addr ∧ d.of_node ∈ p.of_node.children ∧ p.addr < d.addr)) ∧
    (tbl (resolveRoot pf root) = false →
      ∀ d ∈ newDevices s (of_platform_bus_probe pf fate root arg parent s).2,
        (d.of_node ∈ (resolveRoot pf root).children ∧ d.parent = parent) ∨
        (∃ p ∈ newDevices s (of_platform_bus_probe pf fate root arg parent s).2,
          d.parent = some p.addr ∧ d.of_node ∈ p.of_node.children ∧ p.addr < d.addr)) ∧
    (tbl (resolveRoot pf root) = true →
      ∀ d ∈ newDevices s (of_platform_bus_probe pf fate root arg parent s).2,
        d.of_node.addr = (resolveRoot pf root).addr → d.parent = parent) ∧
    (tbl (resolveRoot pf root) = true →
      ∀ d ∈ newDevices s (of_platform_bus_probe pf fate root arg parent s).2,
        ∀ c ∈ (resolveRoot pf root).children, d.of_node.addr = c.addr →
          ∃ p ∈ newDevices s (of_platform_bus_probe pf fate root arg parent s).2,
            p.of_node = resolveRoot pf root ∧ p.parent = parent ∧
            d.parent = some p.addr) ∧
    (tbl (resolveRoot pf root) = true →
      ∀ d ∈ newDevices s (of_platform_bus_probe pf fate root arg parent s).2,
        d.of_node.addr ≠ (resolveRoot pf root).addr →
          ∃ p ∈ newDevices s (of_platform_bus_probe pf fate root arg parent s).2,
            d.parent = some p.addr ∧ d.of_node ∈ p.of_node.children) ∧
    (tbl (resolveRoot pf root) = false →
      ∀ d ∈ newDevices s (of_platform_bus_probe pf fate root arg parent s).2,
        ∀ c ∈ (resolveRoot pf root).children, d.of_node.addr = c.addr →
          d.parent = parent) ∧
    (tbl (resolveRoot pf root) = false →
      ∀ d ∈ newDevices s (of_platform_bus_probe pf fate root arg parent s).2,
        (∀ c ∈ (resolveRoot pf root).children, d.of_node.addr ≠ c.addr) →
          ∃ p ∈ newDevices s (of_platform_bus_probe pf fate root arg parent s).2,
            d.parent = some p.addr ∧ d.of_node ∈ p.of_node.children) ∧
    (∀ d ∈ newDevices s (of_platform_bus_probe pf fate root arg parent s).2,
      ∀ p ∈ newDevices s (of_platform_bus_probe pf fate root arg parent s).2,
      ∀ g ∈ p.of_node.children, g.addr = d.of_node.addr → d.parent = some p.addr) := by
  have hB : ∀ d ∈ newDevices s (of_platform_bus_create fate bus tbl parent s).2,
      HierChildren bus.children parent
        (newDevices s (of_platform_bus_create fate bus tbl parent s).2) d := by
    rw [newDevices_of_runs (bus_create_runs fate tbl bus parent s)]
    exact hier_takeWhile _ _ parent _ s.attempts (planChildren_consecutive tbl _ parent _)
      (planChildren_hier tbl _ parent _)
  have hBm : Mirrors (newDevices s (of_platform_bus_create fate bus tbl parent s).2) := by
    rw [newDevices_of_runs (bus_create_runs fate tbl bus parent s)]
    exact mirrors_subset (planChildren_mirrors tbl _ hbus parent s.attempts)
      (List.takeWhile_sublist _).subset
  have hrootc : (addrsList (resolveRoot pf root).children).Nodup := by
    rw [addrs_eq] at hroot
    exact (List.nodup_cons.mp hroot).2
  have hroot1 : (addrsList [resolveRoot pf root]).Nodup := by
    simpa [addrsList] using hroot
  have hPm : tbl (resolveRoot pf root) = true →
      ∀ d ∈ newDevices s (of_platform_bus_probe pf fate root arg parent s).2,
      HierChildren [resolveRoot pf root] parent
        (newDevices s (of_platform_bus_probe pf fate root arg parent s).2) d := by
    intro hm
    rw [newDevices_of_runs (probe_runs pf fate root arg parent s tbl htbl), planProbe,
      if_pos hm]
    exact hier_takeWhile _ _ parent _ s.attempts (planNode_consecutive tbl _ parent _)
      (planNode_hier tbl _ parent _)
  have hPn : tbl (resolveRoot pf root) = false →
      ∀ d ∈ newDevices s (of_platform_bus_probe pf fate root arg parent s).2,
      HierChildren (resolveRoot pf root).children parent
        (newDevices s (of_platform_bus_probe pf fate root arg parent s).2) d := by
    intro hm
    have hm' : ¬ tbl (resolveRoot pf root) = true := by simp [hm]
    rw [newDevices_of_runs (probe_runs pf fate root arg parent s tbl htbl), planProbe,
      if_neg hm']
    exact hier_takeWhile _ _ parent _ s.attempts
      (planProbeChildren_consecutive tbl _ parent _) (planProbeChildren_hier tbl _ parent _)
  have hPmir : Mirrors (newDevices s (of_platform_bus_probe pf fate root arg parent s).2) := by
    rw [newDevices_of_runs (probe_runs pf fate root arg parent s tbl htbl), planProbe]
    refine mirrors_subset ?_ (List.takeWhile_sublist _).subset
    split
    · exact planNode_mirrors tbl _ hroot parent s.attempts
    · exact planProbeChildren_mirrors tbl _ hrootc parent s.attempts
  refine ⟨?_, ?_, ?_, hBm, ?_, ?_, ?_, ?_, ?_, ?_, ?_, hPmir⟩
  · intro d hd
    rcases hB d hd with h | ⟨_, _, _, p, hp, h3⟩
    · exact Or.inl h
    · exact Or.inr ⟨p, hp, h3⟩
  · intro d hd c hc ha
    exact hier_root_parent _ hbus parent _ d (hB d hd) c hc ha
  · intro d hd hne
    rcases hB d hd with h | ⟨_, _, _, p, hp, h3, h4, _⟩
    · exact absurd rfl (hne d.of_node h.1)
    · exact ⟨p, hp, h3, h4⟩
  · intro hm d hd
    rcases hPm hm d hd with h | ⟨_, _, _, p, hp, h3⟩
    · exact Or.inl ⟨List.mem_singleton.mp h.1, h.2⟩
    · exact Or.inr ⟨p, hp, h3⟩
  · intro hm d hd
    rcases hPn hm d hd with h | ⟨_, _, _, p, hp, h3⟩
    · exact Or.inl h
    · exact Or.inr ⟨p, hp, h3⟩
  · intro hm d hd ha
    exact hier_root_parent _ hroot1 parent _ d (hPm hm d hd) _ (List.mem_singleton.mpr rfl) ha
  · intro hm d hd c hc ha
    have hnew := newDevices_of_runs (probe_runs pf fate root arg parent s tbl htbl)
    rw [planProbe, if_pos hm, planNode_eq, if_pos hm] at hnew
    have hd' := hd
    rw [hnew] at hd'
    have hhead := head_mem_takeWhile _ _ _ d hd'
    rw [← hnew] at hhead
    exact ⟨_, hhead, rfl, rfl,
      hPmir d hd _ hhead c hc ha.symm⟩
  · intro hm d hd hne
    rcases hPm hm d hd with h | ⟨_, _, _, p, hp, h3, h4, _⟩
    · exact absurd (by rw [List.mem_singleton.mp h.1]) hne
    · exact ⟨p, hp, h3, h4⟩
  · intro hm d hd c hc ha
    exact hier_root_parent _ hrootc parent _ d (hPn hm d hd) c hc ha
  · intro hm d hd hne
    rcases hPn hm d hd with h | ⟨_, _, _, p, hp, h3, h4, _⟩
    · exact absurd rfl (hne d.of_node h.1)
    · exact ⟨p, hp, h3, h4⟩

/-- Witness for C14: the scenario tree, walked and probed under a parent device 7, with a
table that matches the root and with a table that matches only the child `/soc/bridge`. -/
theorem device_hierarchy_mirrors_tree_witness :
    (resolveTable socPlatform (MatchesArg.table socTable) = some socTable ∧
      (addrsList socTree.children).Nodup ∧
      (resolveRoot socPlatform (some socTree)).addrs.Nodup) ∧
    ((∀ d ∈ newDevices emptyKernel (of_platform_bus_create allOk socTree socTable (some 7)
        emptyKernel).2,
      (d.of_node ∈ socTree.children ∧ d.parent = (some 7)) ∨
      (∃ p ∈ newDevices emptyKernel (of_platform_bus_create allOk socTree socTable (some 7)
          emptyKernel).2,
        d.parent = some p.addr ∧ d.of_node ∈ p.of_node.children ∧ p.addr < d.addr)) ∧
    (∀ d ∈ newDevices emptyKernel (of_platform_bus_create allOk socTree socTable (some 7)
        emptyKernel).2,
      ∀ c ∈ socTree.children, d.of_node.addr = c.addr → d.parent = (some 7)) ∧
    (∀ d ∈ newDevices emptyKernel (of_platform_bus_create allOk socTree socTable (some 7)
        emptyKernel).2,
      (∀ c ∈ socTree.children, d.of_node.addr ≠ c.addr) →
      ∃ p ∈ newDevices emptyKernel (of_platform_bus_create allOk socTree socTable (some 7)
          emptyKernel).2,
        d.parent = some p.addr ∧ d.of_node ∈ p.of_node.children) ∧
    (∀ d ∈ newDevices emptyKernel (of_platform_bus_create allOk socTree socTable (some 7)
        emptyKernel).2,
      ∀ p ∈ newDevices emptyKernel (of_platform_bus_create allOk socTree socTable (some 7)
          emptyKernel).2,
      ∀ g ∈ p.of_node.children, g.addr = d.of_node.addr → d.parent = some p.addr) ∧
    (socTable (resolveRoot socPlatform (some socTree)) = true →
      ∀ d ∈ newDevices emptyKernel (of_platform_bus_probe socPlatform allOk (some socTree)
          (MatchesArg.table socTable) (some 7) emptyKernel).2,
        (d.of_node = resolveRoot socPlatform (some socTree) ∧ d.parent = (some 7)) ∨
        (∃ p ∈ newDevices emptyKernel (of_platform_bus_probe socPlatform allOk (some socTree)
            (MatchesArg.table socTable) (some 7) emptyKernel).2,
          d.parent = some p.addr ∧ d.of_node ∈ p.of_node.children ∧ p.addr < d.addr)) ∧
    (socTable (resolveRoot socPlatform (some socTree)) = false →
      ∀ d ∈ newDevices emptyKernel (of_platform_bus_probe socPlatform allOk (some socTree)
          (MatchesArg.table socTable) (some 7) emptyKernel).2,
        (d.of_node ∈ (resolveRoot socPlatform (some socTree)).children ∧ d.parent = (some 7)) ∨
        (∃ p ∈ newDevices emptyKernel (of_platform_bus_probe socPlatform allOk (some socTree)
            (MatchesArg.table socTable) (some 7) emptyKernel).2,
          d.parent = some p.addr ∧ d.of_node ∈ p.of_node.children ∧ p.addr < d.addr)) ∧
    (socTable (resolveRoot socPlatform (some socTree)) = true →
      ∀ d ∈ newDevices emptyKernel (of_platform_bus_probe socPlatform allOk (some socTree)
          (MatchesArg.table socTable) (some 7) emptyKernel).2,
        d.of_node.addr = (resolveRoot socPlatform (some socTree)).addr → d.parent = (some 7)) ∧
    (socTable (resolveRoot socPlatform (some socTree)) = true →
      ∀ d ∈ newDevices emptyKernel (of_platform_bus_probe socPlatform allOk (some socTree)
          (MatchesArg.table socTable) (some 7) emptyKernel).2,
        ∀ c ∈ (resolveRoot socPlatform (some socTree)).children, d.of_node.addr = c.addr →
          ∃ p ∈ newDevices emptyKernel (of_platform_bus_probe socPlatform allOk (some socTree)
              (MatchesArg.table socTable) (some 7) emptyKernel).2,
            p.of_node = resolveRoot socPlatform (some socTree) ∧ p.parent = (some 7) ∧
            d.parent = some p.addr) ∧
    (socTable (resolveRoot socPlatform (some socTree)) = true →
      ∀ d ∈ newDevices emptyKernel (of_platform_bus_probe socPlatform allOk (some socTree)
          (MatchesArg.table socTable) (some 7) emptyKernel).2,
        d.of_node.addr ≠ (resolveRoot socPlatform (some socTree)).addr →
          ∃ p ∈ newDevices emptyKernel (of_platform_bus_probe socPlatform allOk (some socTree)
              (MatchesArg.table socTable) (some 7) emptyKernel).2,
            d.parent = some p.addr ∧ d.of_node ∈ p.of_node.children) ∧
    (socTable (resolveRoot socPlatform (some socTree)) = false →
      ∀ d ∈ newDevices emptyKernel (of_platform_bus_probe socPlatform allOk (some socTree)
          (MatchesArg.table socTable) (some 7) emptyKernel).2,
        ∀ c ∈ (resolveRoot socPlatform (some socTree)).children, d.of_node.addr = c.addr →
          d.parent = (some 7)) ∧
    (socTable (resolveRoot socPlatform (some socTree)) = false →
      ∀ d ∈ newDevices emptyKernel (of_platform_bus_probe socPlatform allOk (some socTree)
          (MatchesArg.table socTable) (some 7) emptyKernel).2,
        (∀ c ∈ (resolveRoot socPlatform (some socTree)).children, d.of_node.addr ≠ c.addr) →
          ∃ p ∈ newDevices emptyKernel (of_platform_bus_probe socPlatform allOk (some socTree)
              (MatchesArg.table socTable) (some 7) emptyKernel).2,
            d.parent = some p.addr ∧ d.of_node ∈ p.of_node.children) ∧
    (∀ d ∈ newDevices emptyKernel (of_platform_bus_probe socPlatform allOk (some socTree)
        (MatchesArg.table socTable) (some 7) emptyKernel).2,
      ∀ p ∈ newDevices emptyKernel (of_platform_bus_probe socPlatform allOk (some socTree)
          (MatchesArg.table socTable) (some 7) emptyKernel).2,
      ∀ g ∈ p.of_node.children, g.addr = d.of_node.addr → d.parent = some p.addr)) ∧
    (resolveTable socPlatform (MatchesArg.table bridgeTable) = some bridgeTable ∧
      (addrsList socTree.children).Nodup ∧
      (resolveRoot socPlatform (some socTree)).addrs.Nodup) ∧
    ((∀ d ∈ newDevices emptyKernel (of_platform_bus_create allOk socTree bridgeTable (some 7)
        emptyKernel).2,
      (d.of_node ∈ socTree.children ∧ d.parent = (some 7)) ∨
      (∃ p ∈ newDevices emptyKernel (of_platform_bus_create allOk socTree bridgeTable (some 7)
          emptyKernel).2,
        d.parent = some p.addr ∧ d.of_node ∈ p.of_node.children ∧ p.addr < d.addr)) ∧
    (∀ d ∈ newDevices emptyKernel (of_platform_bus_create allOk socTree bridgeTable (some 7)
        emptyKernel).2,
      ∀ c ∈ socTree.children, d.of_node.addr = c.addr → d.parent = (some 7)) ∧
    (∀ d ∈ newDevices emptyKernel (of_platform_bus_create allOk socTree bridgeTable (some 7)
        emptyKernel).2,
      (∀ c ∈ socTree.children, d.of_node.addr ≠ c.addr) →
      ∃ p ∈ newDevices emptyKernel (of_platform_bus_create allOk socTree bridgeTable (some 7)
          emptyKernel).2,
        d.parent = some p.addr ∧ d.of_node ∈ p.of_node.children) ∧
    (∀ d ∈ newDevices emptyKernel (of_platform_bus_create allOk socTree bridgeTable (some 7)
        emptyKernel).2,
      ∀ p ∈ newDevices emptyKernel (of_platform_bus_create allOk socTree bridgeTable (some 7)
          emptyKernel).2,
      ∀ g ∈ p.of_node.children, g.addr = d.of_node.addr → d.parent = some p.addr) ∧
    (bridgeTable (resolveRoot socPlatform (some socTree)) = true →
      ∀ d ∈ newDevices emptyKernel (of_platform_bus_probe socPlatform allOk (some socTree)
          (MatchesArg.table bridgeTable) (some 7) emptyKernel).2,
        (d.of_node = resolveRoot socPlatform (some socTree) ∧ d.parent = (some 7)) ∨
        (∃ p ∈ newDevices emptyKernel (of_platform_bus_probe socPlatform allOk (some socTree)
            (MatchesArg.table bridgeTable) (some 7) emptyKernel).2,
          d.parent = some p.addr ∧ d.of_node ∈ p.of_node.children ∧ p.addr < d.addr)) ∧
    (bridgeTable (resolveRoot socPlatform (some socTree)) = false →
      ∀ d ∈ newDevices emptyKernel (of_platform_bus_probe socPlatform allOk (some socTree)
          (MatchesArg.table bridgeTable) (some 7) emptyKernel).2,
        (d.of_node ∈ (resolveRoot socPlatform (some socTree)).children ∧ d.parent = (some 7)) ∨
        (∃ p ∈ newDevices emptyKernel (of_platform_bus_probe socPlatform allOk (some socTree)
            (MatchesArg.table bridgeTable) (some 7) emptyKernel).2,
          d.parent = some p.addr ∧ d.of_node ∈ p.of_node.children ∧ p.addr < d.addr)) ∧
    (bridgeTable (resolveRoot socPlatform (some socTree)) = true →
      ∀ d ∈ newDevices emptyKernel (of_platform_bus_probe socPlatform allOk (some socTree)
          (MatchesArg.table bridgeTable) (some 7) emptyKernel).2,
        d.of_node.addr = (resolveRoot socPlatform (some socTree)).addr → d.parent = (some 7)) ∧
    (bridgeTable (resolveRoot socPlatform (some socTree)) = true →
      ∀ d ∈ newDevices emptyKernel (of_platform_bus_probe socPlatform allOk (some socTree)
          (MatchesArg.table bridgeTable) (some 7) emptyKernel).2,
        ∀ c ∈ (resolveRoot socPlatform (some socTree)).children, d.of_node.addr = c.addr →
          ∃ p ∈ newDevices emptyKernel (of_platform_bus_probe socPlatform allOk (some socTree)
              (MatchesArg.table bridgeTable) (some 7) emptyKernel).2,
            p.of_node = resolveRoot socPlatform (some socTree) ∧ p.parent = (some 7) ∧
            d.parent = some p.addr) ∧
    (bridgeTable (resolveRoot socPlatform (some socTree)) = true →
      ∀ d ∈ newDevices emptyKernel (of_platform_bus_probe socPlatform allOk (some socTree)
          (MatchesArg.table bridgeTable) (some 7) emptyKernel).2,
        d.of_node.addr ≠ (resolveRoot socPlatform (some socTree)).addr →
          ∃ p ∈ newDevices emptyKernel (of_platform_bus_probe socPlatform allOk (some socTree)
              (MatchesArg.table bridgeTable) (some 7) emptyKernel).2,
            d.parent = some p.addr ∧ d.of_node ∈ p.of_node.children) ∧
    (bridgeTable (resolveRoot socPlatform (some socTree)) = false →
      ∀ d ∈ newDevices emptyKernel (of_platform_bus_probe socPlatform allOk (some socTree)
          (MatchesArg.table bridgeTable) (some 7) emptyKernel).2,
        ∀ c ∈ (resolveRoot socPlatform (some socTree)).children, d.of_node.addr = c.addr →
          d.parent = (some 7)) ∧
    (bridgeTable (resolveRoot socPlatform (some socTree)) = false →
      ∀ d ∈ newDevices emptyKernel (of_platform_bus_probe socPlatform allOk (some socTree)
          (MatchesArg.table bridgeTable) (some 7) emptyKernel).2,
        (∀ c ∈ (resolveRoot socPlatform (some socTree)).children, d.of_node.addr ≠ c.addr) →
          ∃ p ∈ newDevices emptyKernel (of_platform_bus_probe socPlatform allOk (some socTree)
              (MatchesArg.table bridgeTable) (some 7) emptyKernel).2,
            d.parent = some p.addr ∧ d.of_node ∈ p.of_node.children) ∧
    (∀ d ∈ newDevices emptyKernel (of_platform_bus_probe socPlatform allOk (some socTree)
        (MatchesArg.table bridgeTable) (some 7) emptyKernel).2,
      ∀ p ∈ newDevices emptyKernel (of_platform_bus_probe socPlatform allOk (some socTree)
          (MatchesArg.table bridgeTable) (some 7) emptyKernel).2,
      ∀ g ∈ p.of_node.children, g.addr = d.of_node.addr → d.parent = some p.addr)) ∧
    ((of_platform_bus_probe socPlatform allOk (some socTree) (MatchesArg.table socTable)
      (some 7) emptyKernel).2.klist_devices.map
        (fun d => (d.of_node.full_name, d.addr, d.parent)) =
      [("/soc", 0, some 7), ("/soc/uart0", 1, some 0), ("/soc/bridge", 2, some 0),
        ("/soc/bridge/dev0", 3, some 2)] ∧
    (of_platform_bus_probe socPlatform allOk (some socTree) (MatchesArg.table bridgeTable)
      (some 7) emptyKernel).2.klist_devices.map
        (fun d => (d.of_node.full_name, d.addr, d.parent)) =
      [("/soc/bridge", 0, some 7), ("/soc/bridge/dev0", 1, some 0)] ∧
    (of_platform_bus_create allOk socTree socTable (some 7)
      emptyKernel).2.klist_devices.map
        (fun d => (d.of_node.full_name, d.addr, d.parent)) =
      [("/soc/uart0", 0, some 7), ("/soc/bridge", 1, some 7),
        ("/soc/bridge/dev0", 2, some 1)]) :=
  ⟨⟨rfl, by decide, by decide⟩,
    device_hierarchy_mirrors_tree socPlatform allOk (some socTree)
      (MatchesArg.table socTable) socTree socTable (some 7) emptyKernel rfl (by decide)
      (by decide),
    ⟨rfl, by decide, by decide⟩,
    device_hierarchy_mirrors_tree socPlatform allOk (some socTree)
      (MatchesArg.table bridgeTable) socTree bridgeTable (some 7) emptyKernel rfl (by decide)
      (by decide),
    by decide, by decide, by decide⟩

/-! ## Termination and recursion depth -/

theorem height_le_heightList {c : DeviceNode} {cs : List DeviceNode} (h : c ∈ cs) :
    c.height ≤ heightList cs := by
  induction cs with
  | nil => cases h
  | cons x xs ih =>
    rw [heightList]
    rcases List.mem_cons.mp h with e | h
    · rw [e]; exact Nat.le_max_left _ _
    · exact Nat.le_trans (ih h) (Nat.le_max_right _ _)

theorem height_eq (c : DeviceNode) : c.height = heightList c.children + 1 := by
  cases c; simp [DeviceNode.height, DeviceNode.children]

theorem bus_create_loop_depth_eq (fate : Nat → Outcome)
    (call : DeviceNode → MatchTable → Option Nat → Kernel → Option (Int × Kernel))
    (tbl : MatchTable) (cs : List DeviceNode)
    (hcall : ∀ c ∈ cs, ∀ (parent : Option Nat) (s : Kernel),
      call c tbl parent s = some (of_platform_bus_create fate c tbl parent s)) :
    ∀ (parent : Option Nat) (rc : Int) (prev : Option DeviceNode) (s : Kernel),
      bus_create_loop_depth fate call cs tbl parent rc prev s =
        some (bus_create_loop fate cs tbl parent rc prev s) := by
  induction cs with
  | nil => intro parent rc prev s; rfl
  | cons c rest ih =>
    intro parent rc prev s
    have ih1 := ih (fun x hx => hcall x (List.mem_cons_of_mem _ hx))
    rw [bus_create_loop_depth, bus_create_loop]
    generalize of_platform_device_create fate c none parent
      (of_get_next_child prev (some c) s) = r
    obtain ⟨dev, s2⟩ := r
    cases dev with
    | none => rfl
    | some dev =>
      simp only
      by_cases hm : of_match_node tbl c = false
      · simp only [if_pos hm]
        exact ih1 parent rc (some c) s2
      · simp only [if_neg hm]
        by_cases h0 : rc = 0
        · simp only [if_pos h0, hcall c (List.mem_cons_self _ _)]
          split
          · rfl
          · exact ih1 parent _ (some c) _
        · simp [h0]

theorem bus_create_depth_eq (fate : Nat → Outcome) (tbl : MatchTable) :
    ∀ (depth : Nat) (bus : DeviceNode), bus.height ≤ depth →
      ∀ (parent : Option Nat) (s : Kernel),
        of_platform_bus_create_depth fate depth bus tbl parent s =
          some (of_platform_bus_create fate bus tbl parent s) := by
  intro depth
  induction depth with
  | zero =>
    intro bus h
    rw [height_eq] at h
    omega
  | succ depth ih =>
    intro bus h parent s
    rw [of_platform_bus_create_depth, bus_create_eq]
    apply bus_create_loop_depth_eq
    intro c hc parent1 s1
    apply ih
    have := height_le_heightList hc
    rw [height_eq] at h
    omega

theorem probe_node_depth_eq (fate : Nat → Outcome) (tbl : MatchTable) (depth : Nat)
    (np : DeviceNode) (h : np.height ≤ depth) (parent : Option Nat) (s : Kernel) :
    probe_node_depth fate depth np tbl parent s = some (probe_node fate np tbl parent s) := by
  rw [probe_node_depth, probe_node]
  generalize of_platform_device_create fate np none parent s = r
  obtain ⟨dev, s2⟩ := r
  cases dev with
  | none => rfl
  | some dev => exact bus_create_depth_eq fate tbl depth np h _ _

theorem bus_probe_loop_depth_eq (fate : Nat → Outcome) (tbl : MatchTable) (depth : Nat)
    (cs : List DeviceNode) (h : heightList cs ≤ depth) :
    ∀ (parent : Option Nat) (rc : Int) (prev : Option DeviceNode) (s : Kernel),
      bus_probe_loop_depth fate depth cs tbl parent rc prev s =
        some (bus_probe_loop fate cs tbl parent rc prev s) := by
  induction cs with
  | nil => intro parent rc prev s; rfl
  | cons c rest ih =>
    intro parent rc prev s
    rw [heightList] at h
    have ih1 := ih (Nat.le_trans (Nat.le_max_right _ _) h)
    rw [bus_probe_loop_depth, bus_probe_loop]
    by_cases hm : of_match_node tbl c = false
    · simp only [if_pos hm]
      exact ih1 parent rc (some c) _
    · simp only [if_neg hm]
      rw [probe_node_depth_eq fate tbl depth c (Nat.le_trans (Nat.le_max_left _ _) h)]
      simp only
      split
      · rfl
      · exact ih1 parent _ (some c) _

theorem probe_depth_eq (pf : Platform) (fate : Nat → Outcome) (depth : Nat)
    (root : Option DeviceNode) (h : (resolveRoot pf root).height < depth) (arg : MatchesArg)
    (parent : Option Nat) (s : Kernel) :
    of_platform_bus_probe_depth pf fate depth root arg parent s =
      some (of_platform_bus_probe pf fate root arg parent s) := by
  cases depth with
  | zero => omega
  | succ depth =>
    simp only [of_platform_bus_probe_depth]
    rw [probe_eq]
    cases resolveTable pf arg with
    | none => rfl
    | some tbl =>
      have hr : (resolveRoot pf root).height ≤ depth := by omega
      have hc : heightList (resolveRoot pf root).children ≤ depth := by
        rw [height_eq] at hr; omega
      cases root with
      | none =>
        simp only [of_find_node_by_path, resolveRoot, of_match_node] at hr hc ⊢
        split
        · rw [probe_node_depth_eq fate tbl depth _ hr]
        · rw [bus_probe_loop_depth_eq fate tbl depth _ hc]
      | some r =>
        simp only [resolveRoot, of_match_node] at hr hc ⊢
        split
        · rw [probe_node_depth_eq fate tbl depth _ hr]
        · rw [bus_probe_loop_depth_eq fate tbl depth _ hc]

/-- C16: `of_platform_bus_create` and `of_platform_bus_probe` return a result on every
tree, for every table and every pattern of failures: they are total functions, defined by
recursion on the tree, and the recursion only goes from a node to one of its children.
Room for as many nested activations of `of_platform_bus_create` as the tree is deep is
enough for every call to complete with the result of the function, and one activation more
is enough for the probe. -/
theorem walk_terminates_within_tree_depth (pf : Platform) (fate : Nat → Outcome)
    (root : Option DeviceNode) (arg : MatchesArg) (bus : DeviceNode) (tbl : MatchTable)
    (parent : Option Nat) (s : Kernel) (depth : Nat) (hbus : bus.height ≤ depth)
    (hroot : (resolveRoot pf root).height < depth) :
    of_platform_bus_create_depth fate depth bus tbl parent s =
        some (of_platform_bus_create fate bus tbl parent s) ∧
      of_platform_bus_probe_depth pf fate depth root arg parent s =
        some (of_platform_bus_probe pf fate root arg parent s) :=
  ⟨bus_create_depth_eq fate tbl depth bus hbus parent s,
    probe_depth_eq pf fate depth root hroot arg parent s⟩

/-- Witness for C16: the scenario tree, of depth 3, with a table matching every node; room
for 4 activations is enough, room for 2 is not enough for `of_platform_bus_create`. -/
theorem walk_terminates_within_tree_depth_witness :
    (socTree.height ≤ 4 ∧ (resolveRoot socPlatform (some socTree)).height < 4) ∧
    (of_platform_bus_create_depth (failsAt 9) 4 socTree anyTable none emptyKernel =
        some (of_platform_bus_create (failsAt 9) socTree anyTable none emptyKernel) ∧
      of_platform_bus_probe_depth socPlatform (failsAt 9) 4 (some socTree)
          (MatchesArg.table anyTable) none emptyKernel =
        some (of_platform_bus_probe socPlatform (failsAt 9) (some socTree)
          (MatchesArg.table anyTable) none emptyKernel)) ∧
    (socTree.height = 3 ∧
      (of_platform_bus_create_depth (failsAt 9) 3 socTree anyTable none emptyKernel).isSome =
        true ∧
      (of_platform_bus_create_depth (failsAt 9) 2 socTree anyTable none emptyKernel).isSome =
        false) :=
  ⟨⟨by decide, by decide⟩,
    walk_terminates_within_tree_depth socPlatform (failsAt 9) (some socTree)
      (MatchesArg.table anyTable) socTree anyTable none emptyKernel 4 (by decide) (by decide),
    by decide, by decide, by decide⟩

/-! ## The nodes a successful probe materializes -/

theorem nodeWithPaths_eq (path : List DeviceNode) (c : DeviceNode) :
    nodeWithPaths path c = (path, c) :: forestWithPaths (path ++ [c]) c.children := by
  cases c; simp [nodeWithPaths, DeviceNode.children]

theorem forestWithPaths_addrs (cs : List DeviceNode) :
    ∀ path, (forestWithPaths path cs).map (fun e => e.2.addr) = addrsList cs := by
  induction cs using forest_induction with
  | nil => intro path; rfl
  | cons c rest ihc ihr =>
    intro path
    rw [forestWithPaths, addrsList, List.map_append, nodeWithPaths_eq, addrs_eq, List.map_cons,
      ihc, ihr]

theorem forestWithPaths_filter_nil (tbl : MatchTable) (cs : List DeviceNode) :
    ∀ path : List DeviceNode, path.all tbl = false →
      (forestWithPaths path cs).filter (fun e => e.1.all tbl) = [] := by
  induction cs using forest_induction with
  | nil => intro path _; rfl
  | cons c rest ihc ihr =>
    intro path h
    rw [forestWithPaths, List.filter_append, nodeWithPaths_eq, List.filter_cons]
    have h2 : (path ++ [c]).all tbl = false := by simp [List.all_append, h]
    simp only [h, ihc _ h2, ihr _ h]
    rfl

theorem planChildren_nodes (tbl : MatchTable) (cs : List DeviceNode) :
    ∀ (path : List DeviceNode) (parent : Option Nat) (b : Nat), path.all tbl = true →
      (planChildren tbl parent b cs).map (fun d => d.of_node) =
        ((forestWithPaths path cs).filter (fun e => e.1.all tbl)).map (fun e => e.2) := by
  induction cs using forest_induction with
  | nil => intro path parent b _; rfl
  | cons c rest ihc ihr =>
    intro path parent b h
    rw [planChildren, forestWithPaths, List.filter_append, List.map_append, List.map_append,
      ihr path parent _ h, nodeWithPaths_eq, List.filter_cons, planNode_eq]
    simp only [h, if_true, List.map_cons]
    congr 1
    by_cases hm : tbl c = true
    · have h2 : (path ++ [c]).all tbl = true := by simp [List.all_append, h, hm]
      rw [if_pos hm, ihc (path ++ [c]) (some b) (b + 1) h2]
      rfl
    · have h2 : (path ++ [c]).all tbl = false := by
        simp only [Bool.not_eq_true] at hm
        simp [List.all_append, hm]
      rw [if_neg hm, forestWithPaths_filter_nil tbl _ _ h2]
      rfl

theorem planNode_nodes (tbl : MatchTable) (c : DeviceNode) (hm : tbl c = true)
    (parent : Option Nat) (b : Nat) :
    (planNode tbl parent b c).map (fun d => d.of_node) = expectedFromChild tbl c := by
  have h2 : [c].all tbl = true := by simp [hm]
  rw [planNode_eq, if_pos hm, List.map_cons, planChildren_nodes tbl _ [c] (some b) (b + 1) h2]
  rfl

theorem planProbeChildren_nodes (tbl : MatchTable) (cs : List DeviceNode) :
    ∀ (parent : Option Nat) (b : Nat),
      (planProbeChildren tbl parent b cs).map (fun d => d.of_node) =
        (cs.filter (fun c => tbl c)).flatMap (expectedFromChild tbl) := by
  induction cs with
  | nil => intro parent b; rfl
  | cons c rest ih =>
    intro parent b
    rw [planProbeChildren, List.filter_cons]
    by_cases hm : tbl c = true
    · rw [if_pos hm, if_pos hm, List.map_append, ih, planNode_nodes tbl c hm]
      simp [List.flatMap]
    · rw [if_neg hm, if_neg hm, ih]

theorem planProbe_nodes (tbl : MatchTable) (root : DeviceNode) (parent : Option Nat)
    (b : Nat) :
    (planProbe tbl parent b root).map (fun d => d.of_node) = expectedNodes tbl root := by
  unfold planProbe expectedNodes
  by_cases hm : tbl root = true
  · rw [if_pos hm, if_pos hm, planNode_eq, if_pos hm, List.map_cons,
      planChildren_nodes tbl _ [] (some b) (b + 1) rfl]
    rfl
  · rw [if_neg hm, if_neg hm, planProbeChildren_nodes]
    rfl

/-- C17: when every creation succeeds, a probe with a usable table returns 0 and the
nodes of the devices it registers, in order of registration, are exactly the nodes the
specification lists, in depth-first pre-order: with a matching root, the root and every
descendant all of whose proper ancestors strictly below the root match; with a root that
does not match, every matching direct child and every descendant of such a child all of
whose ancestors from that child down to its own parent match.  The list is taken from the
pre-order listing of the tree, so every node is listed at most once and after its
ancestors, and nothing beneath a node that does not match is listed. -/
theorem probe_materializes_expected_nodes (pf : Platform) (fate : Nat → Outcome)
    (root : Option DeviceNode) (arg : MatchesArg) (parent : Option Nat) (s : Kernel)
    (tbl : MatchTable) (htbl : resolveTable pf arg = some tbl)
    (hok : ∀ i, fate i = Outcome.ok) :
    (of_platform_bus_probe pf fate root arg parent s).1 = 0 ∧
    (of_platform_bus_probe pf fate root arg parent s).2.klist_devices =
      s.klist_devices ++ newDevices s (of_platform_bus_probe pf fate root arg parent s).2 ∧
    (newDevices s (of_platform_bus_probe pf fate root arg parent s).2).map
        (fun d => d.of_node) = expectedNodes tbl (resolveRoot pf root) ∧
    (nodeWithPaths [] (resolveRoot pf root)).map (fun e => e.2.addr) =
      (resolveRoot pf root).addrs ∧
    List.Sublist ((expectedNodes tbl (resolveRoot pf root)).map (fun c => c.addr))
      (resolveRoot pf root).addrs := by
  have h := probe_all_ok pf fate root arg parent s tbl htbl hok
  have hnew := newDevices_of_append s _ _ h.2
  refine ⟨h.1, ?_, ?_, ?_, ?_⟩
  · rw [hnew]; exact h.2
  · rw [hnew]; exact planProbe_nodes tbl _ parent s.attempts
  · rw [nodeWithPaths_eq, List.map_cons, forestWithPaths_addrs, addrs_eq]
  · rw [← planProbe_nodes tbl _ parent s.attempts, List.map_map]
    exact planProbe_sublist tbl _ parent s.attempts

/-- Witness for C17: the two-level tree probed with a table that matches the root and a
node beneath a child that does not match; the child and its sibling get devices, nothing
beneath the child does.  With a table matching only `/bus/sub` the root is a container and
the walk starts at that child. -/
theorem probe_materializes_expected_nodes_witness :
    (resolveTable socPlatform (MatchesArg.table deepTable) = some deepTable ∧
      (∀ i, allOk i = Outcome.ok)) ∧
    ((of_platform_bus_probe socPlatform allOk (some nestTree) (MatchesArg.table deepTable) none
        emptyKernel).1 = 0 ∧
    (of_platform_bus_probe socPlatform allOk (some nestTree) (MatchesArg.table deepTable) none
        emptyKernel).2.klist_devices =
      emptyKernel.klist_devices ++ newDevices emptyKernel
        (of_platform_bus_probe socPlatform allOk (some nestTree) (MatchesArg.table deepTable)
          none emptyKernel).2 ∧
    (newDevices emptyKernel (of_platform_bus_probe socPlatform allOk (some nestTree)
        (MatchesArg.table deepTable) none emptyKernel).2).map (fun d => d.of_node) =
      expectedNodes deepTable (resolveRoot socPlatform (some nestTree)) ∧
    (nodeWithPaths [] (resolveRoot socPlatform (some nestTree))).map (fun e => e.2.addr) =
      (resolveRoot socPlatform (some nestTree)).addrs ∧
    List.Sublist
      ((expectedNodes deepTable (resolveRoot socPlatform (some nestTree))).map
        (fun c => c.addr))
      (resolveRoot socPlatform (some nestTree)).addrs) ∧
    ((expectedNodes deepTable nestTree).map (fun c => c.full_name) =
        ["/bus", "/bus/sub", "/bus/late"] ∧
      (expectedNodes nestTable nestTree).map (fun c => c.full_name) =
        ["/bus", "/bus/sub", "/bus/sub/x", "/bus/sub/y", "/bus/late"] ∧
      (expectedNodes (fun n => n.full_name == "/bus/sub") nestTree).map
        (fun c => c.full_name) = ["/bus/sub", "/bus/sub/x", "/bus/sub/y"] ∧
      (of_platform_bus_probe socPlatform allOk (some nestTree) (MatchesArg.table deepTable)
        none emptyKernel).2.klist_devices.map (fun d => d.of_node.full_name) =
        ["/bus", "/bus/sub", "/bus/late"]) :=
  ⟨⟨rfl, fun _ => rfl⟩,
    probe_materializes_expected_nodes socPlatform allOk (some nestTree)
      (MatchesArg.table deepTable) none emptyKernel deepTable rfl (fun _ => rfl),
    by decide, by decide, by decide, by decide⟩

end OfPlatform
